import Mathlib

/-!
# ICS-29 fee middleware: verification of the escrow/distribution engine

A shallow embedding of the ibc-go 29-fee middleware (packet-relay
incentivization).  The module's implementation files are not part of the
source tree under verification; only the middleware test-suite
(`modules/apps/29-fee/ibc_middleware_test.go`) and the expected-keeper
interfaces (`types/expected_keepers.go`) are.  The definitions below are
therefore modelled from the specification, and amended exactly where the
in-tree tests pin different behaviour; every such amendment is recorded in
the doc comment of the definition it affects.
-/

/-! ## Coins

Multi-denomination coin bundles.  `sdk.Coins` is a list of
denomination/amount pairs; all fee arithmetic in the engine is denomwise.
The semantic observation is `Coins.amt`, the amount a bundle carries in one
denomination. -/

structure Coin where
  denom : String
  amount : Nat
deriving DecidableEq, Repr

abbrev Coins := List Coin

namespace Coins

/-- The amount of denomination `d` contained in the bundle. -/
def amt (cs : Coins) (d : String) : Nat :=
  ((cs.filter (fun c => c.denom = d)).map Coin.amount).sum

/-- The list of denominations occurring in the bundle (possibly with
duplicates). -/
def denoms (cs : Coins) : List String := cs.map Coin.denom

/-- Denomwise maximum of two bundles (`sdk.Coins.Max`). -/
def maxCoins (a b : Coins) : Coins :=
  (denoms (a ++ b)).dedup.map (fun d => ⟨d, max (amt a d) (amt b d)⟩)

/-- Denomwise (truncated) difference of two bundles (`sdk.Coins.Sub`; in the
engine it is only applied where the result is non-negative). -/
def subCoins (a b : Coins) : Coins :=
  (denoms a).dedup.map (fun d => ⟨d, amt a d - amt b d⟩)

@[simp] theorem amt_nil (d : String) : amt ([] : Coins) d = 0 := rfl

theorem amt_append (a b : Coins) (d : String) :
    amt (a ++ b) d = amt a d + amt b d := by
  simp [amt, List.filter_append]

theorem amt_eq_zero_of_not_mem_denoms {cs : Coins} {d : String}
    (h : d ∉ denoms cs) : amt cs d = 0 := by
  induction cs with
  | nil => rfl
  | cons c rest ih =>
    have hc : ¬ c.denom = d := by
      intro hd; exact h (by simp [denoms, hd])
    have hrest : d ∉ denoms rest := by
      intro hm; exact h (by simp [denoms] at hm ⊢; exact Or.inr hm)
    simp [amt, List.filter_cons, hc]
    simpa [amt] using ih hrest

theorem denoms_append (a b : Coins) : denoms (a ++ b) = denoms a ++ denoms b := by
  simp [denoms]

/-- Amount lookup on a keyed table built from a duplicate-free list of
denominations. -/
theorem amt_map_of_nodup (l : List String) (f : String → Nat) (x : String)
    (hnd : l.Nodup) :
    amt (l.map (fun d => ⟨d, f d⟩)) x = if x ∈ l then f x else 0 := by
  induction l with
  | nil => rfl
  | cons d rest ih =>
    rcases List.nodup_cons.mp hnd with ⟨hd, hrest⟩
    by_cases hx : x = d
    · subst hx
      simp [amt, List.filter_cons, List.mem_cons]
      have : amt (rest.map (fun d => (⟨d, f d⟩ : Coin))) x = 0 := by
        have := ih hrest
        simp [if_neg hd] at this
        · exact this
      simp [amt] at this
      simp [this]
    · have := ih hrest
      simp [amt, List.filter_cons, Ne.symm hx] at this ⊢
      rw [this]
      simp [List.mem_cons, hx]

theorem amt_maxCoins (a b : Coins) (d : String) :
    amt (maxCoins a b) d = max (amt a d) (amt b d) := by
  unfold maxCoins
  rw [amt_map_of_nodup _ _ _ (List.nodup_dedup _)]
  by_cases h : d ∈ (denoms (a ++ b)).dedup
  · simp [h]
  · rw [List.mem_dedup, denoms_append, List.mem_append] at h
    push_neg at h
    rw [if_neg (by rw [List.mem_dedup, denoms_append, List.mem_append]; push_neg; exact h)]
    rw [amt_eq_zero_of_not_mem_denoms h.1, amt_eq_zero_of_not_mem_denoms h.2]
    simp

theorem amt_subCoins (a b : Coins) (d : String) :
    amt (subCoins a b) d = amt a d - amt b d := by
  unfold subCoins
  rw [amt_map_of_nodup _ _ _ (List.nodup_dedup _)]
  by_cases h : d ∈ (denoms a).dedup
  · simp [h]
  · rw [if_neg h]
    rw [List.mem_dedup] at h
    rw [amt_eq_zero_of_not_mem_denoms h]
    simp

end Coins

/-! ## Bank

Balances, indexed by account address and denomination.  The funds-movement
collaborator of the spec (§6): balance check, transfer, blocked-address and
validity policy. -/

abbrev Addr := String

/-- The ledger: address → denomination → balance. -/
def Bank : Type := Addr → String → Nat

namespace Bank

/-- `true` when `a` holds at least `cs` (denomwise aggregate check, as the
bank's balance check is against canonical coin sets). -/
def hasCoins (b : Bank) (a : Addr) (cs : Coins) : Bool :=
  (Coins.denoms cs).all (fun d => decide (Coins.amt cs d ≤ b a d))

/-- The ledger after moving `cs` from `src` to `dst` (no sufficiency
check; callers go through `send`). -/
def transfer (b : Bank) (src dst : Addr) (cs : Coins) : Bank :=
  fun x d =>
    let v := if x = src then b x d - Coins.amt cs d else b x d
    if x = dst then v + Coins.amt cs d else v

/-- Balance transfer: fails (returns `none`) when `src` does not hold
`cs`. -/
def send (b : Bank) (src dst : Addr) (cs : Coins) : Option Bank :=
  if hasCoins b src cs then some (transfer b src dst cs) else none

theorem hasCoins_iff (b : Bank) (a : Addr) (cs : Coins) :
    hasCoins b a cs = true ↔ ∀ d, Coins.amt cs d ≤ b a d := by
  constructor
  · intro h d
    by_cases hm : d ∈ Coins.denoms cs
    · have := List.all_eq_true.mp h d hm
      exact of_decide_eq_true this
    · rw [Coins.amt_eq_zero_of_not_mem_denoms hm]; exact Nat.zero_le _
  · intro h
    apply List.all_eq_true.mpr
    intro d _
    exact decide_eq_true (h d)

theorem transfer_src {b : Bank} {src dst : Addr} (cs : Coins)
    (h : src ≠ dst) (d : String) :
    transfer b src dst cs src d = b src d - Coins.amt cs d := by
  simp [transfer, h]

theorem transfer_dst {b : Bank} {src dst : Addr} (cs : Coins)
    (h : dst ≠ src) (d : String) :
    transfer b src dst cs dst d = b dst d + Coins.amt cs d := by
  simp [transfer, h]

theorem transfer_other {b : Bank} {src dst : Addr} (cs : Coins)
    {a : Addr} (h1 : a ≠ src) (h2 : a ≠ dst) (d : String) :
    transfer b src dst cs a d = b a d := by
  simp [transfer, h1, h2]

theorem send_eq_some {b b' : Bank} {src dst : Addr} {cs : Coins}
    (h : send b src dst cs = some b') : b' = transfer b src dst cs ∧
      hasCoins b src cs = true := by
  unfold send at h
  by_cases hc : hasCoins b src cs
  · simp [hc] at h; exact ⟨h.symm, hc⟩
  · simp [hc] at h

theorem send_of_hasCoins {b : Bank} {src dst : Addr} {cs : Coins}
    (h : hasCoins b src cs = true) :
    send b src dst cs = some (transfer b src dst cs) := by
  simp [send, h]

end Bank

/-! ## Fee data model -/

/-- Modelled from the spec: `Fee` of the 29-fee types (implementation not
under the source tree) — three coin bundles `RecvFee`, `AckFee`,
`TimeoutFee` (§3). -/
structure Fee where
  recvFee : Coins
  ackFee : Coins
  timeoutFee : Coins
deriving DecidableEq, Repr

/-- Modelled from the spec: `Fee.Total()` of the missing 29-fee types.  The
spec's §3 words describe `Total()` as the coin-wise *sum* of the three
bundles, but the in-tree tests pin a different function: in
`TestOnAcknowledgementPacket` ("success") the refund account must end at its
initial balance, i.e. `Total() − RecvFee − AckFee = 0` at fees
Recv=100/Ack=200/Timeout=300, and in `TestOnTimeoutPacket` ("success: no
refund") `Total() − TimeoutFee = 0` at the same fees; the cases
"success: some refunds" and "success: refund (recv_fee + ack_fee) -
timeout_fee" pin the non-zero refunds when one side exceeds the other.
That forces the denomwise maximum of `RecvFee + AckFee` and `TimeoutFee`. -/
def Fee.total (f : Fee) : Coins :=
  Coins.maxCoins (f.recvFee ++ f.ackFee) f.timeoutFee

/-- The spec's own words for `Total()` (§3: "their coin-wise sum"), kept for
comparison with the test-pinned `Fee.total` above. -/
def Fee.totalSpecSum (f : Fee) : Coins :=
  f.recvFee ++ f.ackFee ++ f.timeoutFee

/-- Modelled from the spec: `PacketFee` (§3) — one payer's incentive:
fee, refund address and optional relayer allow-list. -/
structure PacketFee where
  fee : Fee
  refundAddress : Addr
  relayers : List Addr
deriving DecidableEq, Repr

/-- Modelled from the spec: `PacketID` (§3). -/
structure PacketId where
  portId : String
  channelId : String
  sequence : Nat
deriving DecidableEq, Repr

/-- An IBC packet, with the fields the fee middleware consumes. -/
structure Packet where
  sourcePort : String
  sourceChannel : String
  destPort : String
  destChannel : String
  sequence : Nat
deriving DecidableEq, Repr

/-- The `PacketID` on the packet's source side, used by acknowledgement and
timeout handling. -/
def Packet.srcId (p : Packet) : PacketId :=
  ⟨p.sourcePort, p.sourceChannel, p.sequence⟩

/-- The `PacketID` on the packet's destination side, used by receive
handling. -/
def Packet.dstId (p : Packet) : PacketId :=
  ⟨p.destPort, p.destChannel, p.sequence⟩

/-! ## Chain environment and keeper state -/

/-- The escrow module account's address (`GetModuleAddress(types.ModuleName)`
of the account collaborator). -/
def feeModuleAddr : Addr := "fee_module_escrow_account"

/-- Modelled from the spec: the account/funds-movement collaborator policy
(§6) — which address strings resolve to valid accounts, and which accounts
are blocked by funds-movement policy. -/
structure Env where
  valid : Addr → Bool
  blocked : Addr → Bool

/-- Modelled from the spec: the durable state kept by the fee keeper (§3):
escrow records, per-channel enablement, payee and counterparty-payee
registries, the async-relayer stash, the module lock, plus the bank ledger
of the funds-movement collaborator. -/
structure FeeState where
  feesInEscrow : List (PacketId × List PacketFee)
  feeEnabled : String → String → Bool
  payee : Addr → String → Option Addr
  counterpartyPayee : Addr → String → Option Addr
  asyncRelayer : PacketId → Option Addr
  locked : Bool
  bank : Bank

namespace FeeState

/-- `Get(packetID)` on the escrow ledger. -/
def lookupEscrow (st : FeeState) (pid : PacketId) : Option (List PacketFee) :=
  (st.feesInEscrow.find? (fun e => e.1 = pid)).map Prod.snd

/-- `Delete(packetID)` on the escrow ledger. -/
def deleteEscrow (st : FeeState) (pid : PacketId) : FeeState :=
  { st with feesInEscrow := st.feesInEscrow.filter (fun e => !(e.1 = pid : Bool)) }

def setFeeEnabled (st : FeeState) (port chan : String) : FeeState :=
  { st with feeEnabled := fun po ch =>
      if po = port ∧ ch = chan then true else st.feeEnabled po ch }

def deleteFeeEnabled (st : FeeState) (port chan : String) : FeeState :=
  { st with feeEnabled := fun po ch =>
      if po = port ∧ ch = chan then false else st.feeEnabled po ch }

def setAsyncRelayer (st : FeeState) (pid : PacketId) (a : Addr) : FeeState :=
  { st with asyncRelayer := fun q => if q = pid then some a else st.asyncRelayer q }

/-- Replace the bank ledger (commit of a successful distribution). -/
def updateBank (st : FeeState) (b : Bank) : FeeState := { st with bank := b }

end FeeState

/-! ## Errors and wire formats -/

/-- The errors surfaced by the middleware that the claims distinguish. -/
inductive FeeErr where
  | invalidVersion
  | feeModuleLocked
  | invalidType
  | invalidAddress
  | app (msg : String)
deriving DecidableEq, Repr

/-- Modelled from the spec: `IncentivizedAcknowledgement` (§3/§6 wire
formats) — the wrapped app's acknowledgement bytes, the forward relayer
attribution, and the wrapped app's success flag. -/
structure IncentivizedAcknowledgement where
  appAcknowledgement : List Nat
  forwardRelayerAddress : String
  underlyingAppSuccess : Bool
deriving DecidableEq, Repr

/-- A JSON field value as it appears in the acknowledgement object.  The
base64 detail of the bytes field is abstracted: the JSON value of a bytes
field carries the byte string itself. -/
inductive JVal where
  | jstr (s : String)
  | jbool (b : Bool)
  | jbytes (bs : List Nat)
deriving DecidableEq, Repr

/-- A JSON object: an ordered list of key/value fields. -/
abbrev JObj := List (String × JVal)

/-- Modelled from the spec: the JSON encoding of
`IncentivizedAcknowledgement` (§6: "JSON with base64 byte encoding"). -/
def encodeAck (a : IncentivizedAcknowledgement) : JObj :=
  [("app_acknowledgement", .jbytes a.appAcknowledgement),
   ("forward_relayer_address", .jstr a.forwardRelayerAddress),
   ("underlying_app_success", .jbool a.underlyingAppSuccess)]

/-- Modelled from the spec: the strict JSON decode of
`IncentivizedAcknowledgement` (§6: "strict-reject on any unrecognized field
during decode"; pinned by the in-tree `TestAckUnmarshal` "failure: unknown
fields").  Fields are folded left to right over the Go zero value; an
unknown key or a wrongly-typed known key fails the decode. -/
def decodeAckFields : JObj → IncentivizedAcknowledgement →
    Option IncentivizedAcknowledgement
  | [], acc => some acc
  | (k, v) :: rest, acc =>
    if k = "app_acknowledgement" then
      match v with
      | .jbytes bs => decodeAckFields rest { acc with appAcknowledgement := bs }
      | _ => none
    else if k = "forward_relayer_address" then
      match v with
      | .jstr s => decodeAckFields rest { acc with forwardRelayerAddress := s }
      | _ => none
    else if k = "underlying_app_success" then
      match v with
      | .jbool b => decodeAckFields rest { acc with underlyingAppSuccess := b }
      | _ => none
    else none

/-- Strict decode of an acknowledgement object, starting from Go zero
values. -/
def decodeAck (o : JObj) : Option IncentivizedAcknowledgement :=
  decodeAckFields o ⟨[], "", false⟩

/-- Acknowledgement bytes as handed to `OnAcknowledgementPacket`: either a
JSON object or bytes that are not valid JSON at all. -/
inductive AckWire where
  | obj (o : JObj)
  | malformed (s : String)
deriving DecidableEq, Repr

/-- Decoding the raw acknowledgement bytes: non-JSON input fails, JSON input
goes through the strict field decode. -/
def decodeAckWire : AckWire → Option IncentivizedAcknowledgement
  | .obj o => decodeAck o
  | .malformed _ => none

/-! ## Distributor

Modelled from the spec (§4.3): the payout/refund algorithm.  The
implementation (keeper escrow code) is not under the source tree; the bullet
rules of §4.3 are followed, with the fee split between the forward and the
reverse relayer amended as the in-tree tests pin it (see
`distributeFeesOnAck`). -/

/-- The overall outcome of a packet's distribution, separating the spec's
three exits (§4.3): success, the malformed-address hard error (ledger
intact, no lock, error surfaced), and the ledger-integrity fault (all
movement aborted, lock engaged, no error surfaced). -/
inductive DistOutcome where
  | ok (b : Bank)
  | invalidAddr
  | lockFault

/-- Modelled from the spec: moving one fee portion out of escrow (§4.3,
bullets under step 4).  The portion is paid to `receiver`; a receiver that
cannot receive it — rejected by funds-movement policy, or not resolvable to
an account at all — has its portion redirected to the refund address
instead.  (The unresolvable-receiver redirect is pinned by the in-tree
flow: `TestOnRecvPacket` "forward address is not found" produces
acknowledgements whose `ForwardRelayerAddress` is the empty string, and the
acknowledgement path must still settle them; §4.3's malformed-address hard
error is checked before any movement — for the payee at the dispatcher
level, and for each entry's refund address in the distribution loops.)  A
movement that still fails (escrow balance insufficient, or the refund
address itself blocked) yields `none`, upon which the caller aborts the
whole distribution and engages the module lock. -/
def distributeFeeLeg (env : Env) (b : Bank) (receiver refundAddr : Addr)
    (cs : Coins) : Option Bank :=
  if env.valid receiver && !env.blocked receiver then
    b.send feeModuleAddr receiver cs
  else if env.valid refundAddr && !env.blocked refundAddr then
    b.send feeModuleAddr refundAddr cs
  else none

/-- Modelled from the spec: distribution of a single `PacketFee` on
acknowledgement (§4.3 step 4).  The spec's words pay `RecvFee + AckFee` to
one resolved payout address; the in-tree tests pin a finer split
(`TestOnAcknowledgementPacket` "success: fail to distribute recv fee
(blocked address), returned to refund account": with the acknowledgement's
forward relayer blocked, the relayer argument still receives the AckFee and
only the RecvFee is redirected): the RecvFee goes to the acknowledgement's
forward relayer address, the AckFee to the payout address resolved from the
relayer that submitted the acknowledgement, and the remainder of `Total()`
to the refund address. -/
def distributePacketFeeAck (env : Env) (b : Bank) (forward reversePayee : Addr)
    (pf : PacketFee) : Option Bank := do
  let b1 ← distributeFeeLeg env b forward pf.refundAddress pf.fee.recvFee
  let b2 ← distributeFeeLeg env b1 reversePayee pf.refundAddress pf.fee.ackFee
  let b3 ← distributeFeeLeg env b2 pf.refundAddress pf.refundAddress
    (Coins.subCoins pf.fee.total (pf.fee.recvFee ++ pf.fee.ackFee))
  pure b3

/-- Modelled from the spec: distribution of a single `PacketFee` on timeout
(§4.3): only the `TimeoutFee` is paid to the resolved payout address and the
remainder of `Total()` is refunded. -/
def distributePacketFeeTimeout (env : Env) (b : Bank) (timeoutPayee : Addr)
    (pf : PacketFee) : Option Bank := do
  let b1 ← distributeFeeLeg env b timeoutPayee pf.refundAddress pf.fee.timeoutFee
  let b2 ← distributeFeeLeg env b1 pf.refundAddress pf.refundAddress
    (Coins.subCoins pf.fee.total pf.fee.timeoutFee)
  pure b2

/-- Modelled from the spec: the per-packet distribution loop on
acknowledgement (§4.3 steps 4–5).  Each entry's refund address is first
required to resolve to a valid account — a malformed refund address aborts
the packet's distribution with the hard `invalidAddr` outcome, the ledger
entry left intact and no lock engaged (§4.3: "If an address (payout or
refund) is malformed ... hard error; the ledger entry is left intact; no
lock").  Then the escrow account's balance is checked against the entry's
recorded `Total()`; on insufficiency (or a failing movement) the whole
distribution yields `lockFault` — the caller then aborts all movement for
this packet and engages the lock. -/
def distributeFeesOnAck (env : Env) (b : Bank) (forward reversePayee : Addr) :
    List PacketFee → DistOutcome
  | [] => .ok b
  | pf :: rest =>
    if !(env.valid pf.refundAddress) then .invalidAddr
    else if b.hasCoins feeModuleAddr pf.fee.total then
      match distributePacketFeeAck env b forward reversePayee pf with
      | some b' => distributeFeesOnAck env b' forward reversePayee rest
      | none => .lockFault
    else .lockFault

/-- Modelled from the spec: the per-packet distribution loop on timeout
(§4.3, `DistributeOnTimeout`), same refund-address validation and
abort/lock structure as the acknowledgement loop. -/
def distributeFeesOnTimeout (env : Env) (b : Bank) (timeoutPayee : Addr) :
    List PacketFee → DistOutcome
  | [] => .ok b
  | pf :: rest =>
    if !(env.valid pf.refundAddress) then .invalidAddr
    else if b.hasCoins feeModuleAddr pf.fee.total then
      match distributePacketFeeTimeout env b timeoutPayee pf with
      | some b' => distributeFeesOnTimeout env b' timeoutPayee rest
      | none => .lockFault
    else .lockFault

/-! ## MiddlewareDispatcher: packet lifecycle callbacks

Modelled from the spec (§4.6), with the wrapped application supplied as an
explicit outcome (it is an external collaborator): for acknowledgement and
timeout the app callback's result is the `appResult` argument; for receive
it is `appAck` (`none` models the asynchronous case where the app returns no
acknowledgement). -/

/-- Lift the wrapped app's outcome over the middleware's resulting state. -/
def appLift (appResult : Except String Unit) (st : FeeState) :
    Except FeeErr FeeState :=
  match appResult with
  | .ok _ => .ok st
  | .error e => .error (.app e)

/-- Modelled from the spec: `OnAcknowledgementPacket` (§4.6).  On a channel
that is not fee-enabled the raw bytes pass straight to the wrapped app.
Otherwise the acknowledgement must decode as `IncentivizedAcknowledgement`
(hard `invalidType` error if not); a locked module silently skips all fee
logic; then the reverse payout address is resolved from the `relayer`
argument through the payee registry (hard `invalidAddress` error when it is
not a well-formed account — ledger untouched, no lock, matching the in-tree
"invalid registered payee address" case); the escrowed fees, if any, are
distributed and the record deleted on success; a malformed refund address
in the record is a hard `invalidAddress` error with the ledger intact and
no lock; a funds-movement failure engages the lock, leaves the record and
all balances untouched, and is not surfaced as an error. -/
def onAcknowledgementPacket (env : Env) (appResult : Except String Unit)
    (st : FeeState) (p : Packet) (wire : AckWire) (relayer : Addr) :
    Except FeeErr FeeState :=
  if !(st.feeEnabled p.sourcePort p.sourceChannel) then
    appLift appResult st
  else
    match decodeAckWire wire with
    | none => .error .invalidType
    | some ack =>
      if st.locked then
        appLift appResult st
      else
        match st.lookupEscrow p.srcId with
        | none => appLift appResult st
        | some fees =>
          let payee := (st.payee relayer p.sourceChannel).getD relayer
          if !(env.valid payee) then .error .invalidAddress
          else
            match distributeFeesOnAck env st.bank ack.forwardRelayerAddress
                payee fees with
            | .ok b' => appLift appResult ((st.deleteEscrow p.srcId).updateBank b')
            | .invalidAddr => .error .invalidAddress
            | .lockFault => appLift appResult { st with locked := true }

/-- Modelled from the spec: `OnTimeoutPacket` (§4.6): if fee-enabled and not
locked, run the timeout distribution (payout address resolved from the
relayer argument through the payee registry, no counterparty-payee
indirection), then call the wrapped app's timeout handler. -/
def onTimeoutPacket (env : Env) (appResult : Except String Unit)
    (st : FeeState) (p : Packet) (relayer : Addr) : Except FeeErr FeeState :=
  if !(st.feeEnabled p.sourcePort p.sourceChannel) || st.locked then
    appLift appResult st
  else
    match st.lookupEscrow p.srcId with
    | none => appLift appResult st
    | some fees =>
      let payee := (st.payee relayer p.sourceChannel).getD relayer
      if !(env.valid payee) then .error .invalidAddress
      else
        match distributeFeesOnTimeout env st.bank payee fees with
        | .ok b' => appLift appResult ((st.deleteEscrow p.srcId).updateBank b')
        | .invalidAddr => .error .invalidAddress
        | .lockFault => appLift appResult { st with locked := true }

/-- The result of `OnRecvPacket`: the raw wrapped-app acknowledgement on a
channel that is not fee-enabled, a wrapped `IncentivizedAcknowledgement` on
a fee-enabled channel, or nothing in the asynchronous case. -/
inductive RecvResult where
  | raw (appAck : List Nat) (success : Bool)
  | incentivized (a : IncentivizedAcknowledgement)
  | async
deriving DecidableEq, Repr

/-- Modelled from the spec: `OnRecvPacket` (§4.6).  If not fee-enabled, pure
passthrough of the wrapped app's result.  If fee-enabled: an app that
returns no acknowledgement (`appAck = none`) has the relayer address
stashed for the later asynchronous write; otherwise the app's
acknowledgement bytes, the forward relayer looked up in the
counterparty-payee registry (defaulting to the empty string when no mapping
exists), and the app's success flag are wrapped into an
`IncentivizedAcknowledgement`. -/
def onRecvPacket (st : FeeState) (p : Packet) (relayer : Addr)
    (appAck : Option (List Nat × Bool)) : RecvResult × FeeState :=
  if !(st.feeEnabled p.destPort p.destChannel) then
    match appAck with
    | some (bs, succ) => (.raw bs succ, st)
    | none => (.async, st)
  else
    match appAck with
    | none => (.async, st.setAsyncRelayer p.dstId relayer)
    | some (bs, succ) =>
      let forward := (st.counterpartyPayee relayer p.destChannel).getD ""
      (.incentivized ⟨bs, forward, succ⟩, st)

/-! ## Channel closure -/

/-- Modelled from the spec: `RefundOnChannelClosure` (§4.3): every
outstanding escrow record of the channel has each entry's `Fee.Total()`
refunded to its refund address; a malformed/blocked refund address (or a
failing movement) for one entry does not abort the others; the records of
the channel are deleted; the module lock is never touched. -/
def refundChannelFees (env : Env) (port chan : String) :
    Bank → List (PacketId × List PacketFee) → Bank
  | b, [] => b
  | b, (pid, fees) :: rest =>
    if pid.portId = port ∧ pid.channelId = chan then
      let b' := fees.foldl (fun acc pf =>
        if env.valid pf.refundAddress && !env.blocked pf.refundAddress then
          match acc.send feeModuleAddr pf.refundAddress pf.fee.total with
          | some b2 => b2
          | none => acc
        else acc) b
      refundChannelFees env port chan b' rest
    else refundChannelFees env port chan b rest

/-- Modelled from the spec: the refund step of channel closure over the
whole state: refund, then drop the channel's escrow records. -/
def refundFeesOnChannelClosure (env : Env) (st : FeeState)
    (port chan : String) : FeeState :=
  { st with
    bank := refundChannelFees env port chan st.bank st.feesInEscrow
    feesInEscrow := st.feesInEscrow.filter
      (fun e => !(e.1.portId = port ∧ e.1.channelId = chan : Bool)) }

/-- Modelled from the spec: `OnChanCloseInit` (§4.6): on a fee-enabled
channel a locked module rejects closure hard with the module-locked error
and performs no refund; otherwise the channel's fees are refunded and the
fee-enabled flag cleared before delegating to the wrapped app. -/
def onChanCloseInit (env : Env) (appResult : Except String Unit)
    (st : FeeState) (port chan : String) : Except FeeErr FeeState :=
  if st.feeEnabled port chan then
    if st.locked then .error .feeModuleLocked
    else
      appLift appResult
        ((refundFeesOnChannelClosure env st port chan).deleteFeeEnabled port chan)
  else appLift appResult st

/-- Modelled from the spec: `OnChanCloseConfirm` (§4.6), identical closure
handling to `OnChanCloseInit`. -/
def onChanCloseConfirm (env : Env) (appResult : Except String Unit)
    (st : FeeState) (port chan : String) : Except FeeErr FeeState :=
  if st.feeEnabled port chan then
    if st.locked then .error .feeModuleLocked
    else
      appLift appResult
        ((refundFeesOnChannelClosure env st port chan).deleteFeeEnabled port chan)
  else appLift appResult st

/-! ## VersionNegotiator

Modelled from the spec (§4.1): channel version strings either carry a
JSON-encoded `Metadata{FeeVersion, AppVersion}` or are opaque strings of the
wrapped app; the two cases are modelled as a sum, decode succeeding exactly
on the wrapped form.  The wrapped app's handshake callbacks are supplied as
functions receiving the version value handed to them (a delegated plain app
version `av` arrives as `.raw av`; a passthrough hands over the original
value). -/

inductive ChanVersion where
  | raw (s : String)
  | wrapped (feeVersion : String) (appVersion : String)
deriving DecidableEq, Repr

/-- The one supported fee version constant (`types.Version`, "ics29-1"). -/
def feeVersionConst : String := "ics29-1"

/-- Modelled from the spec: `OnChanOpenInit` (§4.1).  An empty proposed
version is substituted by the default wrapped metadata; a version that does
not decode as metadata is passed through whole (channel not fee-enabled); a
decodable version with the wrong fee version fails with `ErrInvalidVersion`;
otherwise the app negotiates the inner app version and the result is
re-wrapped.  Amendment pinned by the in-tree tests: the fee-enabled flag is
recorded already at Init — the `TestOnChanOpenAck` case "previous INIT set
without fee, however counterparty set fee version" requires `OnChanOpenAck`
to dispatch on fee-enablement recorded before Ack, passing a decodable fee
version through to the app untouched on a channel whose Init was not
fee-enabled. -/
def onChanOpenInit (appCb : ChanVersion → Except String String)
    (st : FeeState) (port chan : String) (version : ChanVersion) :
    Except FeeErr (ChanVersion × FeeState) :=
  match version with
  | .raw s =>
    if s = "" then
      match appCb (.raw "") with
      | .ok appV => .ok (.wrapped feeVersionConst appV, st.setFeeEnabled port chan)
      | .error e => .error (.app e)
    else
      match appCb (.raw s) with
      | .ok appV => .ok (.raw appV, st)
      | .error e => .error (.app e)
  | .wrapped fv av =>
    if fv = feeVersionConst then
      match appCb (.raw av) with
      | .ok appV => .ok (.wrapped fv appV, st.setFeeEnabled port chan)
      | .error e => .error (.app e)
    else .error .invalidVersion

/-- Modelled from the spec: `OnChanOpenTry` (§4.1) on the counterparty's
version, with the same Init/Try-time fee-enabled recording as
`onChanOpenInit`. -/
def onChanOpenTry (appCb : ChanVersion → Except String String)
    (st : FeeState) (port chan : String) (cpVersion : ChanVersion) :
    Except FeeErr (ChanVersion × FeeState) :=
  match cpVersion with
  | .raw s =>
    match appCb (.raw s) with
    | .ok appV => .ok (.raw appV, st)
    | .error e => .error (.app e)
  | .wrapped fv av =>
    if fv = feeVersionConst then
      match appCb (.raw av) with
      | .ok appV => .ok (.wrapped fv appV, st.setFeeEnabled port chan)
      | .error e => .error (.app e)
    else .error .invalidVersion

/-- Modelled from the spec: `OnChanOpenAck` (§4.1/§4.6), amended as the
in-tree tests pin it: the callback dispatches on the fee-enablement recorded
at Init.  On a fee-enabled channel a counterparty version that does not
decode passes through whole (in-tree case "invalid version fails to
unmarshal metadata"), a decodable one with the wrong fee version fails with
`ErrInvalidVersion`, and a matching one delegates the inner app version; on
a channel that is not fee-enabled the whole version passes through to the
app (in-tree case "previous INIT set without fee, however counterparty set
fee version").  The flag itself is not touched. -/
def onChanOpenAck (appCb : ChanVersion → Except String Unit)
    (st : FeeState) (port chan : String) (cpVersion : ChanVersion) :
    Except FeeErr FeeState :=
  if st.feeEnabled port chan then
    match cpVersion with
    | .raw s => appLift (appCb (.raw s)) st
    | .wrapped fv av =>
      if fv = feeVersionConst then appLift (appCb (.raw av)) st
      else .error .invalidVersion
  else appLift (appCb cpVersion) st

/-- Modelled from the spec: `OnChanOpenConfirm` (§4.6 callback surface) —
the confirm step of the open handshake carries no peer version and
delegates directly to the wrapped app; it touches no fee state. -/
def onChanOpenConfirm (appResult : Except String Unit) (st : FeeState)
    (_port _chan : String) : Except FeeErr FeeState :=
  appLift appResult st

/-- Modelled from the spec: `OnChanUpgradeInit` (§4.1 upgrade variant): the
proposed upgrade version is negotiated exactly like Try, but no durable flag
is touched — enablement is applied only at upgrade-open. -/
def onChanUpgradeInit (appCb : ChanVersion → Except String String)
    (st : FeeState) (version : ChanVersion) :
    Except FeeErr (ChanVersion × FeeState) :=
  match version with
  | .raw s =>
    match appCb (.raw s) with
    | .ok appV => .ok (.raw appV, st)
    | .error e => .error (.app e)
  | .wrapped fv av =>
    if fv = feeVersionConst then
      match appCb (.raw av) with
      | .ok appV => .ok (.wrapped fv appV, st)
      | .error e => .error (.app e)
    else .error .invalidVersion

/-- Modelled from the spec: `OnChanUpgradeTry` (§4.1 upgrade variant) on the
counterparty's upgrade version; no durable flag is touched. -/
def onChanUpgradeTry (appCb : ChanVersion → Except String String)
    (st : FeeState) (cpVersion : ChanVersion) :
    Except FeeErr (ChanVersion × FeeState) :=
  match cpVersion with
  | .raw s =>
    match appCb (.raw s) with
    | .ok appV => .ok (.raw appV, st)
    | .error e => .error (.app e)
  | .wrapped fv av =>
    if fv = feeVersionConst then
      match appCb (.raw av) with
      | .ok appV => .ok (.wrapped fv appV, st)
      | .error e => .error (.app e)
    else .error .invalidVersion

/-- Modelled from the spec: `OnChanUpgradeAck` (§4.1 upgrade variant): a
counterparty version that does not decode passes through whole; a decodable
one with a wrong fee version fails with `ErrInvalidVersion`; no durable flag
is touched. -/
def onChanUpgradeAck (appCb : ChanVersion → Except String Unit)
    (st : FeeState) (cpVersion : ChanVersion) : Except FeeErr FeeState :=
  match cpVersion with
  | .raw s => appLift (appCb (.raw s)) st
  | .wrapped fv av =>
    if fv = feeVersionConst then appLift (appCb (.raw av)) st
    else .error .invalidVersion

/-- Modelled from the spec: the upgrade Open step (§4.1: "the flag always
reflects only the *final negotiated* version, applied at upgrade-open
time"; pinned by the in-tree `TestOnChanUpgradeOpen`): a final version that
decodes as metadata sets the fee-enabled flag, any other clears it.  The
step cannot fail (the callback returns nothing). -/
def onChanUpgradeOpen (st : FeeState) (port chan : String)
    (finalVersion : ChanVersion) : FeeState :=
  match finalVersion with
  | .raw _ => st.deleteFeeEnabled port chan
  | .wrapped _ _ => st.setFeeEnabled port chan

/-! ## Distribution lemmas -/

/-- The recorded amounts of a whole escrow record: the concatenation of each
entry's `Total()`. -/
def grandTotal (fees : List PacketFee) : Coins :=
  fees.foldr (fun pf acc => pf.fee.total ++ acc) []

theorem grandTotal_cons (pf : PacketFee) (rest : List PacketFee) :
    grandTotal (pf :: rest) = pf.fee.total ++ grandTotal rest := rfl

theorem amt_total_ge_recv_ack (f : Fee) (d : String) :
    Coins.amt f.recvFee d + Coins.amt f.ackFee d ≤ Coins.amt f.total d := by
  unfold Fee.total
  rw [Coins.amt_maxCoins, Coins.amt_append]
  exact le_max_left _ _

theorem amt_total_ge_timeout (f : Fee) (d : String) :
    Coins.amt f.timeoutFee d ≤ Coins.amt f.total d := by
  unfold Fee.total
  rw [Coins.amt_maxCoins]
  exact le_max_right _ _

theorem leg_ok {env : Env} {b : Bank} {r refund : Addr} {cs : Coins}
    (h1 : env.valid r = true) (h2 : env.blocked r = false)
    (hs : Bank.hasCoins b feeModuleAddr cs = true) :
    distributeFeeLeg env b r refund cs =
      some (Bank.transfer b feeModuleAddr r cs) := by
  simp [distributeFeeLeg, h1, h2, Bank.send_of_hasCoins hs]

theorem leg_redirect {env : Env} {b : Bank} {r refund : Addr} {cs : Coins}
    (hr : (env.valid r && !env.blocked r) = false)
    (h1 : env.valid refund = true) (h2 : env.blocked refund = false)
    (hs : Bank.hasCoins b feeModuleAddr cs = true) :
    distributeFeeLeg env b r refund cs =
      some (Bank.transfer b feeModuleAddr refund cs) := by
  simp only [distributeFeeLeg, hr, Bool.false_eq_true, if_false, h1, h2]
  simp [Bank.send_of_hasCoins hs]

/-- A successful leg is a transfer out of escrow to either the intended
receiver or the refund address. -/
theorem leg_some {env : Env} {b b' : Bank} {r refund : Addr} {cs : Coins}
    (h : distributeFeeLeg env b r refund cs = some b') :
    Bank.hasCoins b feeModuleAddr cs = true ∧
      (b' = Bank.transfer b feeModuleAddr r cs ∨
       b' = Bank.transfer b feeModuleAddr refund cs) := by
  unfold distributeFeeLeg at h
  by_cases hg : (env.valid r && !env.blocked r) = true
  · rw [if_pos hg] at h
    rcases Bank.send_eq_some h with ⟨hb, hc⟩
    exact ⟨hc, Or.inl hb⟩
  · rw [if_neg hg] at h
    by_cases hg2 : (env.valid refund && !env.blocked refund) = true
    · rw [if_pos hg2] at h
      rcases Bank.send_eq_some h with ⟨hb, hc⟩
      exact ⟨hc, Or.inr hb⟩
    · rw [if_neg hg2] at h
      exact absurd h (by simp)

/-- Escrow-account conservation of a successful leg: when neither candidate
receiver is the escrow account itself, the leg debits the escrow account by
exactly the moved amount. -/
theorem leg_escrow_delta {env : Env} {b b' : Bank} {r refund : Addr}
    {cs : Coins} (h : distributeFeeLeg env b r refund cs = some b')
    (hrm : r ≠ feeModuleAddr) (hfm : refund ≠ feeModuleAddr) (d : String) :
    b' feeModuleAddr d = b feeModuleAddr d - Coins.amt cs d ∧
      Coins.amt cs d ≤ b feeModuleAddr d := by
  rcases leg_some h with ⟨hc, hcase⟩
  have hle : Coins.amt cs d ≤ b feeModuleAddr d :=
    (Bank.hasCoins_iff b feeModuleAddr cs).mp hc d
  refine ⟨?_, hle⟩
  rcases hcase with hb | hb <;> subst hb
  · exact Bank.transfer_src cs (Ne.symm hrm) d
  · exact Bank.transfer_src cs (Ne.symm hfm) d

/-- Escrow-account conservation of one acknowledgement entry: a successful
entry debits the escrow account by exactly the entry's recorded
`Total()`. -/
theorem ackEntry_escrow_delta {env : Env} {b b' : Bank}
    {forward payee : Addr} {pf : PacketFee}
    (h : distributePacketFeeAck env b forward payee pf = some b')
    (hf : forward ≠ feeModuleAddr) (hp : payee ≠ feeModuleAddr)
    (hr : pf.refundAddress ≠ feeModuleAddr) (d : String) :
    b' feeModuleAddr d = b feeModuleAddr d - Coins.amt pf.fee.total d ∧
      Coins.amt pf.fee.total d ≤ b feeModuleAddr d := by
  unfold distributePacketFeeAck at h
  rcases hb1 : distributeFeeLeg env b forward pf.refundAddress pf.fee.recvFee with _ | b1
  · rw [hb1] at h; exact absurd h (by simp)
  rw [hb1] at h
  simp only [Option.bind_eq_bind, Option.some_bind] at h
  rcases hb2 : distributeFeeLeg env b1 payee pf.refundAddress pf.fee.ackFee with _ | b2
  · rw [hb2] at h; exact absurd h (by simp)
  rw [hb2] at h
  simp only [Option.some_bind] at h
  rcases hb3 : distributeFeeLeg env b2 pf.refundAddress pf.refundAddress
      (Coins.subCoins pf.fee.total (pf.fee.recvFee ++ pf.fee.ackFee)) with _ | b3
  · rw [hb3] at h; exact absurd h (by simp)
  rw [hb3] at h
  simp only [Option.some_bind, pure, Option.some.injEq] at h
  subst h
  rcases leg_escrow_delta hb1 hf hr d with ⟨e1, l1⟩
  rcases leg_escrow_delta hb2 hp hr d with ⟨e2, l2⟩
  rcases leg_escrow_delta hb3 hr hr d with ⟨e3, l3⟩
  rw [Coins.amt_subCoins, Coins.amt_append] at e3 l3
  have hge := amt_total_ge_recv_ack pf.fee d
  rw [e1] at e2 l2
  rw [e2] at e3 l3
  exact ⟨by omega, by omega⟩

/-- Escrow-account conservation of one timeout entry. -/
theorem timeoutEntry_escrow_delta {env : Env} {b b' : Bank}
    {payee : Addr} {pf : PacketFee}
    (h : distributePacketFeeTimeout env b payee pf = some b')
    (hp : payee ≠ feeModuleAddr) (hr : pf.refundAddress ≠ feeModuleAddr)
    (d : String) :
    b' feeModuleAddr d = b feeModuleAddr d - Coins.amt pf.fee.total d ∧
      Coins.amt pf.fee.total d ≤ b feeModuleAddr d := by
  unfold distributePacketFeeTimeout at h
  rcases hb1 : distributeFeeLeg env b payee pf.refundAddress pf.fee.timeoutFee with _ | b1
  · rw [hb1] at h; exact absurd h (by simp)
  rw [hb1] at h
  simp only [Option.bind_eq_bind, Option.some_bind] at h
  rcases hb2 : distributeFeeLeg env b1 pf.refundAddress pf.refundAddress
      (Coins.subCoins pf.fee.total pf.fee.timeoutFee) with _ | b2
  · rw [hb2] at h; exact absurd h (by simp)
  rw [hb2] at h
  simp only [Option.some_bind, pure, Option.some.injEq] at h
  subst h
  rcases leg_escrow_delta hb1 hp hr d with ⟨e1, l1⟩
  rcases leg_escrow_delta hb2 hr hr d with ⟨e2, l2⟩
  rw [Coins.amt_subCoins] at e2 l2
  have hge := amt_total_ge_timeout pf.fee d
  rw [e1] at e2 l2
  exact ⟨by omega, by omega⟩

/-- A successful acknowledgement distribution presupposes that the escrow
account held the whole recorded amount. -/
theorem distAck_conserve {env : Env} {forward payee : Addr} :
    ∀ (fees : List PacketFee) (b b' : Bank),
    (∀ pf ∈ fees, pf.refundAddress ≠ feeModuleAddr) →
    forward ≠ feeModuleAddr → payee ≠ feeModuleAddr →
    distributeFeesOnAck env b forward payee fees = .ok b' →
    ∀ d, Coins.amt (grandTotal fees) d ≤ b feeModuleAddr d ∧
      b' feeModuleAddr d = b feeModuleAddr d - Coins.amt (grandTotal fees) d := by
  intro fees
  induction fees with
  | nil =>
    intro b b' _ _ _ h d
    simp [distributeFeesOnAck] at h
    subst h
    simp [grandTotal]
  | cons pf rest ih =>
    intro b b' hrefs hf hp h d
    unfold distributeFeesOnAck at h
    cases hvr : env.valid pf.refundAddress with
    | false =>
      rw [if_pos (by simp [hvr])] at h
      exact absurd h (by simp)
    | true =>
    rw [if_neg (by simp [hvr])] at h
    by_cases hpre : b.hasCoins feeModuleAddr pf.fee.total = true
    · rw [if_pos hpre] at h
      rcases hent : distributePacketFeeAck env b forward payee pf with _ | b2
      · rw [hent] at h; exact absurd h (by simp)
      rw [hent] at h
      have hrpf : pf.refundAddress ≠ feeModuleAddr := hrefs pf (by simp)
      rcases ackEntry_escrow_delta hent hf hp hrpf d with ⟨e1, l1⟩
      have hrest := ih b2 b' (fun q hq => hrefs q (by simp [hq])) hf hp h d
      rw [grandTotal_cons, Coins.amt_append]
      rcases hrest with ⟨hle, heq⟩
      rw [e1] at hle heq
      constructor
      · omega
      · rw [heq]; omega
    · rw [if_neg hpre] at h
      exact absurd h (by simp)

/-- A successful timeout distribution presupposes that the escrow account
held the whole recorded amount. -/
theorem distTimeout_conserve {env : Env} {payee : Addr} :
    ∀ (fees : List PacketFee) (b b' : Bank),
    (∀ pf ∈ fees, pf.refundAddress ≠ feeModuleAddr) →
    payee ≠ feeModuleAddr →
    distributeFeesOnTimeout env b payee fees = .ok b' →
    ∀ d, Coins.amt (grandTotal fees) d ≤ b feeModuleAddr d ∧
      b' feeModuleAddr d = b feeModuleAddr d - Coins.amt (grandTotal fees) d := by
  intro fees
  induction fees with
  | nil =>
    intro b b' _ _ h d
    simp [distributeFeesOnTimeout] at h
    subst h
    simp [grandTotal]
  | cons pf rest ih =>
    intro b b' hrefs hp h d
    unfold distributeFeesOnTimeout at h
    cases hvr : env.valid pf.refundAddress with
    | false =>
      rw [if_pos (by simp [hvr])] at h
      exact absurd h (by simp)
    | true =>
    rw [if_neg (by simp [hvr])] at h
    by_cases hpre : b.hasCoins feeModuleAddr pf.fee.total = true
    · rw [if_pos hpre] at h
      rcases hent : distributePacketFeeTimeout env b payee pf with _ | b2
      · rw [hent] at h; exact absurd h (by simp)
      rw [hent] at h
      have hrpf : pf.refundAddress ≠ feeModuleAddr := hrefs pf (by simp)
      rcases timeoutEntry_escrow_delta hent hp hrpf d with ⟨e1, l1⟩
      have hrest := ih b2 b' (fun q hq => hrefs q (by simp [hq])) hp h d
      rw [grandTotal_cons, Coins.amt_append]
      rcases hrest with ⟨hle, heq⟩
      rw [e1] at hle heq
      constructor
      · omega
      · rw [heq]; omega
    · rw [if_neg hpre] at h
      exact absurd h (by simp)

/-- With every recorded refund address resolving to a valid account, the
acknowledgement distribution never takes the malformed-address hard-error
exit. -/
theorem distAck_valid_no_hard_error {env : Env} {forward payee : Addr} :
    ∀ (fees : List PacketFee) (b : Bank),
    (∀ pf ∈ fees, env.valid pf.refundAddress = true) →
    distributeFeesOnAck env b forward payee fees ≠ .invalidAddr := by
  intro fees
  induction fees with
  | nil =>
    intro b _ h
    simp [distributeFeesOnAck] at h
  | cons pf rest ih =>
    intro b hv h
    unfold distributeFeesOnAck at h
    rw [if_neg (by simp [hv pf (by simp)])] at h
    by_cases hpre : b.hasCoins feeModuleAddr pf.fee.total = true
    · rw [if_pos hpre] at h
      rcases hent : distributePacketFeeAck env b forward payee pf with _ | b2
      · rw [hent] at h; exact absurd h (by simp)
      · rw [hent] at h
        exact ih b2 (fun q hq => hv q (by simp [hq])) h
    · rw [if_neg hpre] at h
      exact absurd h (by simp)

/-- With every recorded refund address resolving to a valid account, the
timeout distribution never takes the malformed-address hard-error exit. -/
theorem distTimeout_valid_no_hard_error {env : Env} {payee : Addr} :
    ∀ (fees : List PacketFee) (b : Bank),
    (∀ pf ∈ fees, env.valid pf.refundAddress = true) →
    distributeFeesOnTimeout env b payee fees ≠ .invalidAddr := by
  intro fees
  induction fees with
  | nil =>
    intro b _ h
    simp [distributeFeesOnTimeout] at h
  | cons pf rest ih =>
    intro b hv h
    unfold distributeFeesOnTimeout at h
    rw [if_neg (by simp [hv pf (by simp)])] at h
    by_cases hpre : b.hasCoins feeModuleAddr pf.fee.total = true
    · rw [if_pos hpre] at h
      rcases hent : distributePacketFeeTimeout env b payee pf with _ | b2
      · rw [hent] at h; exact absurd h (by simp)
      · rw [hent] at h
        exact ih b2 (fun q hq => hv q (by simp [hq])) h
    · rw [if_neg hpre] at h
      exact absurd h (by simp)

/-- When a record's first entry carries a refund address that does not
resolve to a valid account, the distribution loops exit with the
malformed-address hard error before moving any funds. -/
theorem dist_invalid_refund_hard_error {env : Env}
    {forward payee : Addr} {b : Bank} {pf : PacketFee} {rest : List PacketFee}
    (hv : env.valid pf.refundAddress = false) :
    distributeFeesOnAck env b forward payee (pf :: rest) = .invalidAddr ∧
      distributeFeesOnTimeout env b payee (pf :: rest) = .invalidAddr := by
  constructor
  · unfold distributeFeesOnAck
    rw [if_pos (by simp [hv])]
  · unfold distributeFeesOnTimeout
    rw [if_pos (by simp [hv])]

/-- Aggregate timeout fee of a record in one denomination. -/
def sumTimeoutAmt (fees : List PacketFee) (d : String) : Nat :=
  (fees.map (fun pf => Coins.amt pf.fee.timeoutFee d)).sum

/-- Aggregate refund (remainder of `Total()` after the timeout fee) due to
address `a` in one denomination. -/
def refundRemTimeout (fees : List PacketFee) (a : Addr) (d : String) : Nat :=
  ((fees.filter (fun pf => pf.refundAddress = a)).map
    (fun pf => Coins.amt (Coins.subCoins pf.fee.total pf.fee.timeoutFee) d)).sum

theorem sumTimeoutAmt_cons (pf : PacketFee) (rest : List PacketFee) (d : String) :
    sumTimeoutAmt (pf :: rest) d =
      Coins.amt pf.fee.timeoutFee d + sumTimeoutAmt rest d := by
  simp [sumTimeoutAmt]

theorem refundRemTimeout_cons (pf : PacketFee) (rest : List PacketFee)
    (a : Addr) (d : String) :
    refundRemTimeout (pf :: rest) a d =
      (if pf.refundAddress = a
        then Coins.amt (Coins.subCoins pf.fee.total pf.fee.timeoutFee) d else 0) +
      refundRemTimeout rest a d := by
  by_cases h : pf.refundAddress = a
  · simp [refundRemTimeout, List.filter_cons, h]
  · simp [refundRemTimeout, List.filter_cons, h]

/-- The full effect of a successful timeout distribution: under a
sufficiently funded escrow account, with a well-formed unblocked payout
address and well-formed unblocked refund addresses (all distinct from the
escrow account and from the payout address), the loop succeeds, the payout
address gains exactly the aggregate `TimeoutFee`, every other address gains
exactly the remainders of `Total()` recorded for it, and the escrow account
loses the whole recorded amount. -/
theorem distTimeout_success_delta {env : Env} {payee : Addr}
    (hv : env.valid payee = true) (hb : env.blocked payee = false)
    (hpm : payee ≠ feeModuleAddr) :
    ∀ (fees : List PacketFee) (b : Bank),
    (∀ pf ∈ fees, pf.refundAddress ≠ feeModuleAddr ∧ pf.refundAddress ≠ payee ∧
      env.valid pf.refundAddress = true ∧ env.blocked pf.refundAddress = false) →
    (∀ d, Coins.amt (grandTotal fees) d ≤ b feeModuleAddr d) →
    ∃ b', distributeFeesOnTimeout env b payee fees = .ok b' ∧
      (∀ d, b' feeModuleAddr d = b feeModuleAddr d - Coins.amt (grandTotal fees) d) ∧
      (∀ d, b' payee d = b payee d + sumTimeoutAmt fees d) ∧
      (∀ a d, a ≠ payee → a ≠ feeModuleAddr →
        b' a d = b a d + refundRemTimeout fees a d) := by
  intro fees
  induction fees with
  | nil =>
    intro b _ _
    refine ⟨b, by simp [distributeFeesOnTimeout], ?_, ?_, ?_⟩ <;>
      simp [grandTotal, sumTimeoutAmt, refundRemTimeout]
  | cons pf rest ih =>
    intro b hrefs hsuff
    have hsuffc : ∀ d, Coins.amt pf.fee.total d + Coins.amt (grandTotal rest) d
        ≤ b feeModuleAddr d := by
      intro d
      have := hsuff d
      rwa [grandTotal_cons, Coins.amt_append] at this
    rcases hrefs pf (by simp) with ⟨hr1, hr2, hr3, hr4⟩
    have hpre : b.hasCoins feeModuleAddr pf.fee.total = true :=
      (Bank.hasCoins_iff _ _ _).mpr (fun d => by have := hsuffc d; omega)
    have hleg1c : b.hasCoins feeModuleAddr pf.fee.timeoutFee = true :=
      (Bank.hasCoins_iff _ _ _).mpr (fun d => by
        have h1 := hsuffc d
        have h2 := amt_total_ge_timeout pf.fee d
        omega)
    have hleg1 := @leg_ok env b payee pf.refundAddress pf.fee.timeoutFee hv hb hleg1c
    set b1 := Bank.transfer b feeModuleAddr payee pf.fee.timeoutFee with hb1def
    have hb1fm : ∀ d, b1 feeModuleAddr d =
        b feeModuleAddr d - Coins.amt pf.fee.timeoutFee d := by
      intro d
      exact Bank.transfer_src _ (Ne.symm hpm) d
    have hleg2c : b1.hasCoins feeModuleAddr
        (Coins.subCoins pf.fee.total pf.fee.timeoutFee) = true :=
      (Bank.hasCoins_iff _ _ _).mpr (fun d => by
        rw [hb1fm d, Coins.amt_subCoins]
        have h1 := hsuffc d
        have h2 := amt_total_ge_timeout pf.fee d
        omega)
    have hleg2 := @leg_ok env b1 pf.refundAddress pf.refundAddress
      (Coins.subCoins pf.fee.total pf.fee.timeoutFee) hr3 hr4 hleg2c
    set rem := Coins.subCoins pf.fee.total pf.fee.timeoutFee with hremdef
    set b2 := Bank.transfer b1 feeModuleAddr pf.refundAddress rem with hb2def
    have hent : distributePacketFeeTimeout env b payee pf = some b2 := by
      simp [distributePacketFeeTimeout, hleg1, hleg2]
    have hb2fm : ∀ d, b2 feeModuleAddr d =
        b feeModuleAddr d - Coins.amt pf.fee.total d := by
      intro d
      rw [hb2def, Bank.transfer_src _ (Ne.symm hr1) d, hb1fm d, hremdef,
        Coins.amt_subCoins]
      have h1 := hsuffc d
      have h2 := amt_total_ge_timeout pf.fee d
      omega
    rcases ih b2 (fun q hq => hrefs q (by simp [hq])) (fun d => by
        rw [hb2fm d]; have := hsuffc d; omega) with ⟨b3, hrun, hfm, hpay, hoth⟩
    refine ⟨b3, ?_, ?_, ?_, ?_⟩
    · unfold distributeFeesOnTimeout
      rw [if_neg (by simp [hr3]), if_pos hpre, hent]
      exact hrun
    · intro d
      rw [hfm d, hb2fm d, grandTotal_cons, Coins.amt_append]
      have := hsuffc d
      omega
    · intro d
      rw [hpay d, sumTimeoutAmt_cons]
      have hb2p : b2 payee d = b payee d + Coins.amt pf.fee.timeoutFee d := by
        rw [hb2def, Bank.transfer_other _ hpm (Ne.symm hr2) d, hb1def,
          Bank.transfer_dst _ hpm d]
      rw [hb2p]
      omega
    · intro a d ha1 ha2
      rw [hoth a d ha1 ha2, refundRemTimeout_cons]
      by_cases haf : a = pf.refundAddress
      · subst haf
        have hb2a : b2 pf.refundAddress d =
            b pf.refundAddress d + Coins.amt rem d := by
          rw [hb2def, Bank.transfer_dst _ hr1 d, hb1def,
            Bank.transfer_other _ hr1 hr2 d]
        rw [hb2a, if_pos rfl, hremdef]
        omega
      · have hb2a : b2 a d = b a d := by
          rw [hb2def, Bank.transfer_other _ ha2 (fun h => haf h) d, hb1def,
            Bank.transfer_other _ ha2 ha1 d]
        rw [hb2a, if_neg (fun h => haf h.symm)]
        omega

/-- Single-entry acknowledgement distribution with a policy-blocked forward
relayer: the RecvFee is redirected to the refund address, the AckFee still
reaches the reverse payout address, and the remainder of `Total()` is
refunded. -/
theorem ackSingle_blockedForward {env : Env} {b : Bank}
    {forward payee : Addr} {pf : PacketFee}
    (hfb : env.blocked forward = true)
    (hpv : env.valid payee = true) (hpb : env.blocked payee = false)
    (hrv : env.valid pf.refundAddress = true)
    (hrb : env.blocked pf.refundAddress = false)
    (hpm : payee ≠ feeModuleAddr) (hrm : pf.refundAddress ≠ feeModuleAddr)
    (hrp : pf.refundAddress ≠ payee)
    (hsuff : b.hasCoins feeModuleAddr pf.fee.total = true) :
    ∃ b', distributeFeesOnAck env b forward payee [pf] = .ok b' ∧
      (∀ d, b' payee d = b payee d + Coins.amt pf.fee.ackFee d) ∧
      (∀ d, b' pf.refundAddress d = b pf.refundAddress d +
        Coins.amt pf.fee.recvFee d +
        (Coins.amt pf.fee.total d -
          (Coins.amt pf.fee.recvFee d + Coins.amt pf.fee.ackFee d))) ∧
      (∀ d, b' feeModuleAddr d = b feeModuleAddr d - Coins.amt pf.fee.total d) := by
  have hsa : ∀ d, Coins.amt pf.fee.total d ≤ b feeModuleAddr d :=
    (Bank.hasCoins_iff _ _ _).mp hsuff
  have hge : ∀ d, Coins.amt pf.fee.recvFee d + Coins.amt pf.fee.ackFee d ≤
      Coins.amt pf.fee.total d := fun d => amt_total_ge_recv_ack pf.fee d
  have hleg1c : b.hasCoins feeModuleAddr pf.fee.recvFee = true :=
    (Bank.hasCoins_iff _ _ _).mpr (fun d => by have := hsa d; have := hge d; omega)
  have hleg1 : distributeFeeLeg env b forward pf.refundAddress pf.fee.recvFee =
      some (Bank.transfer b feeModuleAddr pf.refundAddress pf.fee.recvFee) :=
    leg_redirect (by simp [hfb]) hrv hrb hleg1c
  set b1 := Bank.transfer b feeModuleAddr pf.refundAddress pf.fee.recvFee with hb1def
  have hb1fm : ∀ d, b1 feeModuleAddr d =
      b feeModuleAddr d - Coins.amt pf.fee.recvFee d := by
    intro d
    rw [hb1def, Bank.transfer_src _ (Ne.symm hrm) d]
  have hleg2c : b1.hasCoins feeModuleAddr pf.fee.ackFee = true :=
    (Bank.hasCoins_iff _ _ _).mpr (fun d => by
      rw [hb1fm d]; have := hsa d; have := hge d; omega)
  have hleg2 : distributeFeeLeg env b1 payee pf.refundAddress pf.fee.ackFee =
      some (Bank.transfer b1 feeModuleAddr payee pf.fee.ackFee) :=
    leg_ok hpv hpb hleg2c
  set b2 := Bank.transfer b1 feeModuleAddr payee pf.fee.ackFee with hb2def
  have hb2fm : ∀ d, b2 feeModuleAddr d = b feeModuleAddr d -
      Coins.amt pf.fee.recvFee d - Coins.amt pf.fee.ackFee d := by
    intro d
    rw [hb2def, Bank.transfer_src _ (Ne.symm hpm) d, hb1fm d]
  set rem := Coins.subCoins pf.fee.total (pf.fee.recvFee ++ pf.fee.ackFee)
    with hremdef
  have hremamt : ∀ d, Coins.amt rem d = Coins.amt pf.fee.total d -
      (Coins.amt pf.fee.recvFee d + Coins.amt pf.fee.ackFee d) := by
    intro d
    rw [hremdef, Coins.amt_subCoins, Coins.amt_append]
  have hleg3c : b2.hasCoins feeModuleAddr rem = true :=
    (Bank.hasCoins_iff _ _ _).mpr (fun d => by
      rw [hb2fm d, hremamt d]; have := hsa d; have := hge d; omega)
  have hleg3 : distributeFeeLeg env b2 pf.refundAddress pf.refundAddress rem =
      some (Bank.transfer b2 feeModuleAddr pf.refundAddress rem) :=
    leg_ok hrv hrb hleg3c
  set b3 := Bank.transfer b2 feeModuleAddr pf.refundAddress rem with hb3def
  refine ⟨b3, ?_, ?_, ?_, ?_⟩
  · unfold distributeFeesOnAck
    rw [if_neg (by simp [hrv]), if_pos hsuff]
    have hent : distributePacketFeeAck env b forward payee pf = some b3 := by
      simp only [distributePacketFeeAck, hleg1, Option.bind_eq_bind,
        Option.some_bind, hleg2, ← hremdef, hleg3]
      rfl
    rw [hent]
    rfl
  · intro d
    rw [hb3def, Bank.transfer_other _ hpm (Ne.symm hrp) d, hb2def,
      Bank.transfer_dst _ hpm d, hb1def, Bank.transfer_other _ hpm (Ne.symm hrp) d]
  · intro d
    rw [hb3def, Bank.transfer_dst _ hrm d, hb2def,
      Bank.transfer_other _ hrm hrp d, hb1def, Bank.transfer_dst _ hrm d,
      hremamt d]
  · intro d
    rw [hb3def, Bank.transfer_src _ (Ne.symm hrm) d, hb2fm d, hremamt d]
    have := hsa d
    have := hge d
    omega

/-- Single-entry acknowledgement distribution when the one resolved payout
address (forward relayer and reverse payee alike) is policy-blocked: every
portion — RecvFee, AckFee and the remainder — lands on the refund address,
which therefore gains the entry's whole `Total()`. -/
theorem ackSingle_blockedPayout {env : Env} {b : Bank}
    {payee : Addr} {pf : PacketFee}
    (hpb : env.blocked payee = true)
    (hrv : env.valid pf.refundAddress = true)
    (hrb : env.blocked pf.refundAddress = false)
    (hpm : payee ≠ feeModuleAddr) (hrm : pf.refundAddress ≠ feeModuleAddr)
    (hrp : pf.refundAddress ≠ payee)
    (hsuff : b.hasCoins feeModuleAddr pf.fee.total = true) :
    ∃ b', distributeFeesOnAck env b payee payee [pf] = .ok b' ∧
      (∀ d, b' payee d = b payee d) ∧
      (∀ d, b' pf.refundAddress d = b pf.refundAddress d +
        Coins.amt pf.fee.total d) ∧
      (∀ d, b' feeModuleAddr d = b feeModuleAddr d - Coins.amt pf.fee.total d) := by
  have hsa : ∀ d, Coins.amt pf.fee.total d ≤ b feeModuleAddr d :=
    (Bank.hasCoins_iff _ _ _).mp hsuff
  have hge : ∀ d, Coins.amt pf.fee.recvFee d + Coins.amt pf.fee.ackFee d ≤
      Coins.amt pf.fee.total d := fun d => amt_total_ge_recv_ack pf.fee d
  have hleg1c : b.hasCoins feeModuleAddr pf.fee.recvFee = true :=
    (Bank.hasCoins_iff _ _ _).mpr (fun d => by have := hsa d; have := hge d; omega)
  have hleg1 : distributeFeeLeg env b payee pf.refundAddress pf.fee.recvFee =
      some (Bank.transfer b feeModuleAddr pf.refundAddress pf.fee.recvFee) :=
    leg_redirect (by simp [hpb]) hrv hrb hleg1c
  set b1 := Bank.transfer b feeModuleAddr pf.refundAddress pf.fee.recvFee with hb1def
  have hb1fm : ∀ d, b1 feeModuleAddr d =
      b feeModuleAddr d - Coins.amt pf.fee.recvFee d := by
    intro d
    rw [hb1def, Bank.transfer_src _ (Ne.symm hrm) d]
  have hleg2c : b1.hasCoins feeModuleAddr pf.fee.ackFee = true :=
    (Bank.hasCoins_iff _ _ _).mpr (fun d => by
      rw [hb1fm d]; have := hsa d; have := hge d; omega)
  have hleg2 : distributeFeeLeg env b1 payee pf.refundAddress pf.fee.ackFee =
      some (Bank.transfer b1 feeModuleAddr pf.refundAddress pf.fee.ackFee) :=
    leg_redirect (by simp [hpb]) hrv hrb hleg2c
  set b2 := Bank.transfer b1 feeModuleAddr pf.refundAddress pf.fee.ackFee with hb2def
  have hb2fm : ∀ d, b2 feeModuleAddr d = b feeModuleAddr d -
      Coins.amt pf.fee.recvFee d - Coins.amt pf.fee.ackFee d := by
    intro d
    rw [hb2def, Bank.transfer_src _ (Ne.symm hrm) d, hb1fm d]
  set rem := Coins.subCoins pf.fee.total (pf.fee.recvFee ++ pf.fee.ackFee)
    with hremdef
  have hremamt : ∀ d, Coins.amt rem d = Coins.amt pf.fee.total d -
      (Coins.amt pf.fee.recvFee d + Coins.amt pf.fee.ackFee d) := by
    intro d
    rw [hremdef, Coins.amt_subCoins, Coins.amt_append]
  have hleg3c : b2.hasCoins feeModuleAddr rem = true :=
    (Bank.hasCoins_iff _ _ _).mpr (fun d => by
      rw [hb2fm d, hremamt d]; have := hsa d; have := hge d; omega)
  have hleg3 : distributeFeeLeg env b2 pf.refundAddress pf.refundAddress rem =
      some (Bank.transfer b2 feeModuleAddr pf.refundAddress rem) :=
    leg_ok hrv hrb hleg3c
  set b3 := Bank.transfer b2 feeModuleAddr pf.refundAddress rem with hb3def
  refine ⟨b3, ?_, ?_, ?_, ?_⟩
  · unfold distributeFeesOnAck
    rw [if_neg (by simp [hrv]), if_pos hsuff]
    have hent : distributePacketFeeAck env b payee payee pf = some b3 := by
      simp only [distributePacketFeeAck, hleg1, Option.bind_eq_bind,
        Option.some_bind, hleg2, ← hremdef, hleg3]
      rfl
    rw [hent]
    rfl
  · intro d
    rw [hb3def, Bank.transfer_other _ hpm (Ne.symm hrp) d, hb2def,
      Bank.transfer_other _ hpm (Ne.symm hrp) d, hb1def,
      Bank.transfer_other _ hpm (Ne.symm hrp) d]
  · intro d
    rw [hb3def, Bank.transfer_dst _ hrm d, hb2def, Bank.transfer_dst _ hrm d,
      hb1def, Bank.transfer_dst _ hrm d, hremamt d]
    have := hsa d
    have := hge d
    omega
  · intro d
    rw [hb3def, Bank.transfer_src _ (Ne.symm hrm) d, hb2fm d, hremamt d]
    have := hsa d
    have := hge d
    omega

/-! ## Middleware unfolding helpers -/

theorem onAck_distributes {env : Env} {appResult : Except String Unit}
    {st : FeeState} {p : Packet} {wire : AckWire} {relayer : Addr}
    {ack : IncentivizedAcknowledgement} {fees : List PacketFee}
    (hfe : st.feeEnabled p.sourcePort p.sourceChannel = true)
    (hlk : st.locked = false)
    (hdec : decodeAckWire wire = some ack)
    (hesc : st.lookupEscrow p.srcId = some fees)
    (hval : env.valid ((st.payee relayer p.sourceChannel).getD relayer) = true) :
    onAcknowledgementPacket env appResult st p wire relayer =
      match distributeFeesOnAck env st.bank ack.forwardRelayerAddress
          ((st.payee relayer p.sourceChannel).getD relayer) fees with
      | .ok b' => appLift appResult ((st.deleteEscrow p.srcId).updateBank b')
      | .invalidAddr => .error .invalidAddress
      | .lockFault => appLift appResult { st with locked := true } := by
  unfold onAcknowledgementPacket
  rw [hfe, hdec, hlk, hesc]
  simp [hval]

theorem onTimeout_distributes {env : Env} {appResult : Except String Unit}
    {st : FeeState} {p : Packet} {relayer : Addr} {fees : List PacketFee}
    (hfe : st.feeEnabled p.sourcePort p.sourceChannel = true)
    (hlk : st.locked = false)
    (hesc : st.lookupEscrow p.srcId = some fees)
    (hval : env.valid ((st.payee relayer p.sourceChannel).getD relayer) = true) :
    onTimeoutPacket env appResult st p relayer =
      match distributeFeesOnTimeout env st.bank
          ((st.payee relayer p.sourceChannel).getD relayer) fees with
      | .ok b' => appLift appResult ((st.deleteEscrow p.srcId).updateBank b')
      | .invalidAddr => .error .invalidAddress
      | .lockFault => appLift appResult { st with locked := true } := by
  unfold onTimeoutPacket
  rw [hfe, hlk, hesc]
  simp [hval]

/-- A deleted record is gone from the escrow ledger. -/
theorem lookupEscrow_deleteEscrow (st : FeeState) (pid : PacketId) :
    (st.deleteEscrow pid).lookupEscrow pid = none := by
  unfold FeeState.deleteEscrow FeeState.lookupEscrow
  have : List.find? (fun e => decide (e.1 = pid))
      (List.filter (fun (e : PacketId × List PacketFee) =>
        !decide (e.1 = pid)) st.feesInEscrow) = none := by
    rw [List.find?_eq_none]
    intro e he
    rcases List.mem_filter.mp he with ⟨_, hne⟩
    simpa using hne
  simp [this]

/-! ## Concrete scenario fixtures

Scenario B of the spec (§8), as set up by the in-tree
`TestOnAcknowledgementPacket`: one escrowed
`PacketFee{Recv=100, Ack=200, Timeout=300}` in the staking denomination for
one packet, relayer `R` with no registered payee. -/

def feeB : Fee := ⟨[⟨"stake", 100⟩], [⟨"stake", 200⟩], [⟨"stake", 300⟩]⟩

def pfB : PacketFee := ⟨feeB, "refundacc", []⟩

def pktB : Packet := ⟨"transfer", "channel-0", "transfer", "channel-1", 1⟩

/-- Scenario B bank: the escrow account holds exactly the recorded
`Total()`; relayer and refund account start at 1000. -/
def bankB : Bank := fun a d =>
  if d = "stake" then
    if a = feeModuleAddr then 300
    else if a = "relayerR" then 1000
    else if a = "refundacc" then 1000
    else 0
  else 0

def stB : FeeState :=
  { feesInEscrow := [(pktB.srcId, [pfB])]
    feeEnabled := fun _ _ => true
    payee := fun _ _ => none
    counterpartyPayee := fun _ _ => none
    asyncRelayer := fun _ => none
    locked := false
    bank := bankB }

/-- Scenario B environment: every non-empty address is well-formed, nothing
is blocked. -/
def envB : Env := ⟨fun a => !(a == ""), fun _ => false⟩

def ackB : IncentivizedAcknowledgement := ⟨[1], "relayerR", true⟩

def wireB : AckWire := .obj (encodeAck ackB)

/-- Scenario C environment: like `envB` but relayer `R`'s resolved address
is policy-blocked. -/
def envC : Env := ⟨fun a => !(a == ""), fun a => a == "relayerR"⟩

/-- Scenario D state: like `stB` but the escrow account is short of the
recorded amount (it holds nothing). -/
def stShort : FeeState :=
  { stB with bank := fun a d => if a = feeModuleAddr then 0 else bankB a d }

/-- A state with the module lock engaged. -/
def stLocked : FeeState := { stB with locked := true }

/-- A state on which no channel is fee-enabled and no fee state exists. -/
def stNoFee : FeeState :=
  { feesInEscrow := []
    feeEnabled := fun _ _ => false
    payee := fun _ _ => none
    counterpartyPayee := fun _ _ => none
    asyncRelayer := fun _ => none
    locked := false
    bank := fun _ _ => 0 }

/-! ## Final helpers -/

theorem appLift_ok {r : Except String Unit} {st st' : FeeState}
    (h : appLift r st = .ok st') : st' = st := by
  cases r with
  | ok u => simp [appLift] at h; exact h.symm
  | error e => simp [appLift] at h

theorem lookupEscrow_updateBank (st : FeeState) (b : Bank) (pid : PacketId) :
    (st.updateBank b).lookupEscrow pid = st.lookupEscrow pid := rfl

theorem decodeAckFields_unknown :
    ∀ (o : JObj) (acc : IncentivizedAcknowledgement) (k : String) (v : JVal),
    (k, v) ∈ o →
    k ∉ (["app_acknowledgement", "forward_relayer_address",
      "underlying_app_success"] : List String) →
    decodeAckFields o acc = none := by
  intro o
  induction o with
  | nil =>
    intro acc k v hm _
    simp at hm
  | cons kv rest ih =>
    intro acc k v hm hk
    have hk1 : ¬ k = "app_acknowledgement" := fun h => hk (by simp [h])
    have hk2 : ¬ k = "forward_relayer_address" := fun h => hk (by simp [h])
    have hk3 : ¬ k = "underlying_app_success" := fun h => hk (by simp [h])
    rcases List.mem_cons.mp hm with heq | hmem
    · subst heq
      unfold decodeAckFields
      rw [if_neg hk1, if_neg hk2, if_neg hk3]
    · rcases kv with ⟨k', v'⟩
      unfold decodeAckFields
      by_cases h1 : k' = "app_acknowledgement"
      · rw [if_pos h1]
        cases v' with
        | jbytes bs => exact ih _ k v hmem hk
        | jstr s => rfl
        | jbool b => rfl
      · rw [if_neg h1]
        by_cases h2 : k' = "forward_relayer_address"
        · rw [if_pos h2]
          cases v' with
          | jstr s => exact ih _ k v hmem hk
          | jbytes bs => rfl
          | jbool b => rfl
        · rw [if_neg h2]
          by_cases h3 : k' = "underlying_app_success"
          · rw [if_pos h3]
            cases v' with
            | jbool b => exact ih _ k v hmem hk
            | jbytes bs => rfl
            | jstr s => rfl
          · rw [if_neg h3]

/-! ## Claims -/

/-- **C1** (counterexample): in Scenario B — a single escrowed
`PacketFee{Recv=100, Ack=200, Timeout=300}` with the acknowledgement naming
relayer R and no registered payee — the refund address's balance does *not*
increase by 300 after `OnAcknowledgementPacket`: it is unchanged at 1000,
because the remainder of `Total()` (the denomwise max of RecvFee+AckFee and
TimeoutFee, here 300) after paying RecvFee+AckFee is zero. -/
theorem c1_counterexample :
    (match onAcknowledgementPacket envB (.ok ()) stB pktB wireB "relayerR" with
     | .ok st' => st'.bank "refundacc" "stake"
     | .error _ => 0) = 1000 ∧ (1000 : Nat) ≠ 1000 + 300 := by
  decide

/-- **C1** (amended): in Scenario B, `OnAcknowledgementPacket` increases R's
balance by exactly 300 (RecvFee+AckFee), leaves the refund address's balance
unchanged (the remainder of `Total()` — the denomwise max of RecvFee+AckFee
and TimeoutFee, which is 300, not 600 — is zero), and deletes the packet's
escrow record; the escrow account is emptied and no error is returned. -/
theorem c1_scenarioB_distribution :
    (match onAcknowledgementPacket envB (.ok ()) stB pktB wireB "relayerR" with
     | .ok st' => (st'.bank "relayerR" "stake", st'.bank "refundacc" "stake",
         st'.bank feeModuleAddr "stake", st'.lookupEscrow pktB.srcId)
     | .error _ => (0, 0, 0, some [])) = (1300, 1000, 0, none) := by
  decide

/-- **C2**: for every packet with an escrow record whose refund addresses
resolve to valid accounts (a malformed refund address is the distinct
hard-error path of §4.3 — ledger intact, no lock, error surfaced — modelled
by the `invalidAddr` exit of the distribution loops), if the escrow
account's balance is insufficient for the recorded amount (the `Total()` of
every recorded entry taken together), then both acknowledgement and timeout
handling abort all fund movement, set the module lock, leave the escrow
record (and every balance) intact, and return success — the resulting state
is exactly the input state with `locked := true`. -/
theorem c2_insufficient_escrow_locks :
    (∀ (env : Env) (st : FeeState) (p : Packet) (wire : AckWire)
      (relayer : Addr) (ack : IncentivizedAcknowledgement)
      (fees : List PacketFee),
      st.feeEnabled p.sourcePort p.sourceChannel = true →
      st.locked = false →
      decodeAckWire wire = some ack →
      st.lookupEscrow p.srcId = some fees →
      env.valid ((st.payee relayer p.sourceChannel).getD relayer) = true →
      ack.forwardRelayerAddress ≠ feeModuleAddr →
      (st.payee relayer p.sourceChannel).getD relayer ≠ feeModuleAddr →
      (∀ pf ∈ fees, pf.refundAddress ≠ feeModuleAddr) →
      (∀ pf ∈ fees, env.valid pf.refundAddress = true) →
      st.bank.hasCoins feeModuleAddr (grandTotal fees) = false →
      onAcknowledgementPacket env (.ok ()) st p wire relayer =
        .ok { st with locked := true }) ∧
    (∀ (env : Env) (st : FeeState) (p : Packet) (relayer : Addr)
      (fees : List PacketFee),
      st.feeEnabled p.sourcePort p.sourceChannel = true →
      st.locked = false →
      st.lookupEscrow p.srcId = some fees →
      env.valid ((st.payee relayer p.sourceChannel).getD relayer) = true →
      (st.payee relayer p.sourceChannel).getD relayer ≠ feeModuleAddr →
      (∀ pf ∈ fees, pf.refundAddress ≠ feeModuleAddr) →
      (∀ pf ∈ fees, env.valid pf.refundAddress = true) →
      st.bank.hasCoins feeModuleAddr (grandTotal fees) = false →
      onTimeoutPacket env (.ok ()) st p relayer =
        .ok { st with locked := true }) := by
  constructor
  · intro env st p wire relayer ack fees hfe hlk hdec hesc hval hfm hpm hrefs
      hrv hshort
    rw [onAck_distributes hfe hlk hdec hesc hval]
    rcases hd : distributeFeesOnAck env st.bank ack.forwardRelayerAddress
        ((st.payee relayer p.sourceChannel).getD relayer) fees with b' | _ | _
    · exfalso
      have hcons := distAck_conserve fees st.bank b' hrefs hfm hpm hd
      have hc : st.bank.hasCoins feeModuleAddr (grandTotal fees) = true :=
        (Bank.hasCoins_iff _ _ _).mpr (fun d => (hcons d).1)
      rw [hshort] at hc
      exact Bool.false_ne_true hc
    · exact absurd hd (distAck_valid_no_hard_error fees st.bank hrv)
    · rfl
  · intro env st p relayer fees hfe hlk hesc hval hpm hrefs hrv hshort
    rw [onTimeout_distributes hfe hlk hesc hval]
    rcases hd : distributeFeesOnTimeout env st.bank
        ((st.payee relayer p.sourceChannel).getD relayer) fees with b' | _ | _
    · exfalso
      have hcons := distTimeout_conserve fees st.bank b' hrefs hpm hd
      have hc : st.bank.hasCoins feeModuleAddr (grandTotal fees) = true :=
        (Bank.hasCoins_iff _ _ _).mpr (fun d => (hcons d).1)
      rw [hshort] at hc
      exact Bool.false_ne_true hc
    · exact absurd hd (distTimeout_valid_no_hard_error fees st.bank hrv)
    · rfl

/-- **C2** (witness): Scenario D — the escrow account holds nothing against
the recorded 300 — run concretely through both paths. -/
theorem c2_insufficient_escrow_locks_witness :
    onAcknowledgementPacket envB (.ok ()) stShort pktB wireB "relayerR" =
      .ok { stShort with locked := true } ∧
    onTimeoutPacket envB (.ok ()) stShort pktB "relayerR" =
      .ok { stShort with locked := true } :=
  ⟨c2_insufficient_escrow_locks.1 envB stShort pktB wireB "relayerR" ackB [pfB]
      (by decide) (by decide) (by decide) (by decide) (by decide) (by decide)
      (by decide) (by decide) (by decide) (by decide),
   c2_insufficient_escrow_locks.2 envB stShort pktB "relayerR" [pfB]
      (by decide) (by decide) (by decide) (by decide) (by decide) (by decide)
      (by decide) (by decide)⟩

/-- **C3** (counterexample): in Scenario B's configuration with relayer R's
resolved address policy-blocked, the refund address receives +300 (the whole
escrowed `Total()`, which is the denomwise max of RecvFee+AckFee and
TimeoutFee), not +600. -/
theorem c3_counterexample :
    (match onAcknowledgementPacket envC (.ok ()) stB pktB wireB "relayerR" with
     | .ok st' => st'.bank "refundacc" "stake"
     | .error _ => 0) = 1300 ∧ (1300 : Nat) ≠ 1000 + 600 := by
  decide

/-- **C3** (amended): in `DistributeOnAcknowledgement` (run via
`OnAcknowledgementPacket`), if the one resolved payout address — named as
forward relayer by the acknowledgement, with no registered payee, so also
the reverse payout — is syntactically well-formed but policy-blocked, every
portion otherwise due to it is redirected to the refund address, processing
continues, and no error is returned: the refund address receives the
entry's whole `Total()` (in Scenario B's configuration +300, since the
escrowed total is 300, not 600), the blocked relayer receives nothing, and
the escrow record is deleted. -/
theorem c3_blocked_payout_redirected :
    ∀ (env : Env) (st : FeeState) (p : Packet) (wire : AckWire)
      (relayer : Addr) (ack : IncentivizedAcknowledgement) (pf : PacketFee),
    st.feeEnabled p.sourcePort p.sourceChannel = true →
    st.locked = false →
    decodeAckWire wire = some ack →
    ack.forwardRelayerAddress = relayer →
    st.lookupEscrow p.srcId = some [pf] →
    st.payee relayer p.sourceChannel = none →
    env.valid relayer = true →
    env.blocked relayer = true →
    relayer ≠ feeModuleAddr →
    pf.refundAddress ≠ feeModuleAddr →
    pf.refundAddress ≠ relayer →
    env.valid pf.refundAddress = true →
    env.blocked pf.refundAddress = false →
    st.bank.hasCoins feeModuleAddr pf.fee.total = true →
    ∃ st', onAcknowledgementPacket env (.ok ()) st p wire relayer = .ok st' ∧
      (∀ d, st'.bank relayer d = st.bank relayer d) ∧
      (∀ d, st'.bank pf.refundAddress d =
        st.bank pf.refundAddress d + Coins.amt pf.fee.total d) ∧
      st'.lookupEscrow p.srcId = none ∧ st'.locked = false := by
  intro env st p wire relayer ack pf hfe hlk hdec hfwd hesc hpay hv hb hpm hrm
    hrp hrv hrb hsuff
  have hval : env.valid ((st.payee relayer p.sourceChannel).getD relayer) = true := by
    rw [hpay]; simpa using hv
  rw [onAck_distributes hfe hlk hdec hesc hval]
  rcases @ackSingle_blockedPayout env st.bank relayer pf
      hb hrv hrb hpm hrm hrp hsuff with ⟨b', hrun, hpb, hrefb, _⟩
  rw [hfwd, hpay]
  simp only [Option.getD_none]
  rw [hrun]
  refine ⟨(st.deleteEscrow p.srcId).updateBank b', rfl, ?_, ?_, ?_, ?_⟩
  · intro d; exact hpb d
  · intro d; exact hrefb d
  · rw [lookupEscrow_updateBank]
    exact lookupEscrow_deleteEscrow st p.srcId
  · exact hlk

/-- **C3** (witness): Scenario C run concretely — R blocked, refund
address +300, R unchanged, record gone. -/
theorem c3_blocked_payout_redirected_witness :
    ∃ st', onAcknowledgementPacket envC (.ok ()) stB pktB wireB "relayerR" =
        .ok st' ∧
      (∀ d, st'.bank "relayerR" d = stB.bank "relayerR" d) ∧
      (∀ d, st'.bank pfB.refundAddress d =
        stB.bank pfB.refundAddress d + Coins.amt pfB.fee.total d) ∧
      st'.lookupEscrow pktB.srcId = none ∧ st'.locked = false :=
  c3_blocked_payout_redirected envC stB pktB wireB "relayerR" ackB pfB
    (by decide) (by decide) (by decide) (by decide) (by decide) (by decide)
    (by decide) (by decide) (by decide) (by decide) (by decide) (by decide)
    (by decide) (by decide)

/-- **C4** (counterexample): on timeout in Scenario B's configuration
(Recv=100, Ack=200, Timeout=300), `DistributeOnTimeout` refunds nothing to
the refund address — the remainder `Total() − TimeoutFee` is zero — whereas
refunding "RecvFee+AckFee of each PacketFee" would add 300. -/
theorem c4_counterexample :
    (match onTimeoutPacket envB (.ok ()) stB pktB "relayerR" with
     | .ok st' => st'.bank "refundacc" "stake"
     | .error _ => 0) = 1000 ∧
    Coins.amt (pfB.fee.recvFee ++ pfB.fee.ackFee) "stake" = 300 ∧
    (1000 : Nat) ≠ 1000 + 300 := by
  decide

/-- **C4** (amended): for every packet with an escrow record,
`DistributeOnTimeout` (run via `OnTimeoutPacket`) pays only the aggregate
`TimeoutFee` to the payout address resolved from `relayerAddr` (no
counterparty-payee indirection; here with no registered payee the relayer
itself) and refunds to each entry's `RefundAddress` the remainder
`Total() − TimeoutFee` (not `RecvFee+AckFee`; the two agree only when
`TimeoutFee` is zero), then deletes the escrow record, without engaging the
lock or erring. -/
theorem c4_timeout_distribution :
    ∀ (env : Env) (st : FeeState) (p : Packet) (relayer : Addr)
      (fees : List PacketFee),
    st.feeEnabled p.sourcePort p.sourceChannel = true →
    st.locked = false →
    st.lookupEscrow p.srcId = some fees →
    st.payee relayer p.sourceChannel = none →
    env.valid relayer = true →
    env.blocked relayer = false →
    relayer ≠ feeModuleAddr →
    (∀ pf ∈ fees, pf.refundAddress ≠ feeModuleAddr ∧
      pf.refundAddress ≠ relayer ∧
      env.valid pf.refundAddress = true ∧ env.blocked pf.refundAddress = false) →
    st.bank.hasCoins feeModuleAddr (grandTotal fees) = true →
    ∃ st', onTimeoutPacket env (.ok ()) st p relayer = .ok st' ∧
      (∀ d, st'.bank relayer d = st.bank relayer d + sumTimeoutAmt fees d) ∧
      (∀ a d, a ≠ relayer → a ≠ feeModuleAddr →
        st'.bank a d = st.bank a d + refundRemTimeout fees a d) ∧
      st'.lookupEscrow p.srcId = none ∧ st'.locked = false := by
  intro env st p relayer fees hfe hlk hesc hpay hv hb hpm hrefs hsuff
  have hval : env.valid ((st.payee relayer p.sourceChannel).getD relayer) = true := by
    rw [hpay]; simpa using hv
  rw [onTimeout_distributes hfe hlk hesc hval]
  rcases distTimeout_success_delta hv hb hpm fees st.bank hrefs
      ((Bank.hasCoins_iff _ _ _).mp hsuff) with ⟨b', hrun, _, hpayee, hoth⟩
  rw [hpay]
  simp only [Option.getD_none]
  rw [hrun]
  refine ⟨(st.deleteEscrow p.srcId).updateBank b', rfl, ?_, ?_, ?_, ?_⟩
  · intro d; exact hpayee d
  · intro a d ha1 ha2; exact hoth a d ha1 ha2
  · rw [lookupEscrow_updateBank]
    exact lookupEscrow_deleteEscrow st p.srcId
  · exact hlk

/-- **C4** (witness): the timeout path of Scenario B's configuration run
concretely — the relayer gains the 300 timeout fee, the refund address and
every other bystander gain exactly their recorded remainder (zero here),
and the record is gone. -/
theorem c4_timeout_distribution_witness :
    ∃ st', onTimeoutPacket envB (.ok ()) stB pktB "relayerR" = .ok st' ∧
      (∀ d, st'.bank "relayerR" d =
        stB.bank "relayerR" d + sumTimeoutAmt [pfB] d) ∧
      (∀ a d, a ≠ "relayerR" → a ≠ feeModuleAddr →
        st'.bank a d = stB.bank a d + refundRemTimeout [pfB] a d) ∧
      st'.lookupEscrow pktB.srcId = none ∧ st'.locked = false :=
  c4_timeout_distribution envB stB pktB "relayerR" [pfB]
    (by decide) (by decide) (by decide) (by decide) (by decide) (by decide)
    (by decide) (by decide) (by decide)

/-- **C9**: in `DistributeOnAcknowledgement` (run via
`OnAcknowledgementPacket`), the AckFee is paid to the payout address
resolved from the `relayer` argument (the reverse relayer that submitted the
acknowledgement), not to the address resolved from the acknowledgement's
`ForwardRelayerAddress`: when the forward relayer's resolved address is
policy-blocked, only the RecvFee portion is redirected to the refund address
(together with the ordinary remainder refund of `Total()`), while the AckFee
still reaches the reverse relayer; the record is deleted and no error is
returned. -/
theorem c9_ackfee_to_reverse_relayer :
    ∀ (env : Env) (st : FeeState) (p : Packet) (wire : AckWire)
      (relayer : Addr) (ack : IncentivizedAcknowledgement) (pf : PacketFee),
    st.feeEnabled p.sourcePort p.sourceChannel = true →
    st.locked = false →
    decodeAckWire wire = some ack →
    st.lookupEscrow p.srcId = some [pf] →
    st.payee relayer p.sourceChannel = none →
    env.blocked ack.forwardRelayerAddress = true →
    env.valid relayer = true →
    env.blocked relayer = false →
    relayer ≠ feeModuleAddr →
    pf.refundAddress ≠ feeModuleAddr →
    pf.refundAddress ≠ relayer →
    env.valid pf.refundAddress = true →
    env.blocked pf.refundAddress = false →
    st.bank.hasCoins feeModuleAddr pf.fee.total = true →
    ∃ st', onAcknowledgementPacket env (.ok ()) st p wire relayer = .ok st' ∧
      (∀ d, st'.bank relayer d =
        st.bank relayer d + Coins.amt pf.fee.ackFee d) ∧
      (∀ d, st'.bank pf.refundAddress d = st.bank pf.refundAddress d +
        Coins.amt pf.fee.recvFee d + (Coins.amt pf.fee.total d -
          (Coins.amt pf.fee.recvFee d + Coins.amt pf.fee.ackFee d))) ∧
      st'.lookupEscrow p.srcId = none := by
  intro env st p wire relayer ack pf hfe hlk hdec hesc hpay hfb hv hb hpm hrm
    hrp hrv hrb hsuff
  have hval : env.valid ((st.payee relayer p.sourceChannel).getD relayer) = true := by
    rw [hpay]; simpa using hv
  rw [onAck_distributes hfe hlk hdec hesc hval]
  rcases @ackSingle_blockedForward env st.bank ack.forwardRelayerAddress relayer
      pf hfb hv hb hrv hrb hpm hrm hrp hsuff with ⟨b', hrun, hpb, hrefb, _⟩
  rw [hpay]
  simp only [Option.getD_none]
  rw [hrun]
  refine ⟨(st.deleteEscrow p.srcId).updateBank b', rfl, ?_, ?_, ?_⟩
  · intro d; exact hpb d
  · intro d; exact hrefb d
  · rw [lookupEscrow_updateBank]
    exact lookupEscrow_deleteEscrow st p.srcId

/-- **C9** (witness): forward relayer named "blockedfwd" is blocked while
reverse relayer R is not: R still gains the 200 AckFee; the refund address
gains the 100 RecvFee plus the zero remainder. -/
theorem c9_ackfee_to_reverse_relayer_witness :
    ∃ st', onAcknowledgementPacket (⟨fun a => !(a == ""), fun a => a == "blockedfwd"⟩)
        (.ok ()) stB pktB (.obj (encodeAck ⟨[1], "blockedfwd", true⟩))
        "relayerR" = .ok st' ∧
      (∀ d, st'.bank "relayerR" d =
        stB.bank "relayerR" d + Coins.amt pfB.fee.ackFee d) ∧
      (∀ d, st'.bank pfB.refundAddress d = stB.bank pfB.refundAddress d +
        Coins.amt pfB.fee.recvFee d + (Coins.amt pfB.fee.total d -
          (Coins.amt pfB.fee.recvFee d + Coins.amt pfB.fee.ackFee d))) ∧
      st'.lookupEscrow pktB.srcId = none :=
  c9_ackfee_to_reverse_relayer ⟨fun a => !(a == ""), fun a => a == "blockedfwd"⟩
    stB pktB (.obj (encodeAck ⟨[1], "blockedfwd", true⟩)) "relayerR"
    ⟨[1], "blockedfwd", true⟩ pfB
    (by decide) (by decide) (by decide) (by decide) (by decide) (by decide)
    (by decide) (by decide) (by decide) (by decide) (by decide) (by decide)
    (by decide) (by decide)

/-- **C5**: while `ModuleLocked` is true, the packet-resolution calls
`OnAcknowledgementPacket` and `OnTimeoutPacket` are a silent skip — they
return success with the state (escrow records and every balance) exactly as
it was — whereas `OnChanCloseInit` and `OnChanCloseConfirm` on a fee-enabled
channel fail hard with the module-locked error and perform no refund. -/
theorem c5_locked_module_behaviour :
    (∀ (env : Env) (st : FeeState) (p : Packet) (wire : AckWire)
      (relayer : Addr) (ack : IncentivizedAcknowledgement),
      st.locked = true →
      st.feeEnabled p.sourcePort p.sourceChannel = true →
      decodeAckWire wire = some ack →
      onAcknowledgementPacket env (.ok ()) st p wire relayer = .ok st) ∧
    (∀ (env : Env) (st : FeeState) (p : Packet) (relayer : Addr),
      st.locked = true →
      onTimeoutPacket env (.ok ()) st p relayer = .ok st) ∧
    (∀ (env : Env) (st : FeeState) (port chan : String),
      st.locked = true → st.feeEnabled port chan = true →
      onChanCloseInit env (.ok ()) st port chan = .error .feeModuleLocked) ∧
    (∀ (env : Env) (st : FeeState) (port chan : String),
      st.locked = true → st.feeEnabled port chan = true →
      onChanCloseConfirm env (.ok ()) st port chan = .error .feeModuleLocked) := by
  refine ⟨?_, ?_, ?_, ?_⟩
  · intro env st p wire relayer ack hlk hfe hdec
    simp [onAcknowledgementPacket, hfe, hdec, hlk, appLift]
  · intro env st p relayer hlk
    simp [onTimeoutPacket, hlk, appLift]
  · intro env st port chan hlk hfe
    simp [onChanCloseInit, hfe, hlk]
  · intro env st port chan hlk hfe
    simp [onChanCloseConfirm, hfe, hlk]

/-- **C5** (witness): the locked Scenario B state run concretely through all
four callbacks. -/
theorem c5_locked_module_behaviour_witness :
    onAcknowledgementPacket envB (.ok ()) stLocked pktB wireB "relayerR" =
      .ok stLocked ∧
    onTimeoutPacket envB (.ok ()) stLocked pktB "relayerR" = .ok stLocked ∧
    onChanCloseInit envB (.ok ()) stLocked "transfer" "channel-0" =
      .error .feeModuleLocked ∧
    onChanCloseConfirm envB (.ok ()) stLocked "transfer" "channel-0" =
      .error .feeModuleLocked :=
  ⟨c5_locked_module_behaviour.1 envB stLocked pktB wireB "relayerR" ackB
      (by decide) (by decide) (by decide),
   c5_locked_module_behaviour.2.1 envB stLocked pktB "relayerR" (by decide),
   c5_locked_module_behaviour.2.2.1 envB stLocked "transfer" "channel-0"
      (by decide) (by decide),
   c5_locked_module_behaviour.2.2.2 envB stLocked "transfer" "channel-0"
      (by decide) (by decide)⟩

/-- **C6** (counterexample): the `FeeEnabled` flag is set already by a
successful fee-version `OnChanOpenInit` — not only by the callback that
finalizes the handshake: on a state with no fee-enabled channel, Init with
the wrapped fee version leaves the flag true. -/
theorem c6_counterexample :
    (match onChanOpenInit (fun _ => .ok "mock-version") stNoFee "transfer"
        "channel-0" (.wrapped feeVersionConst "mock-version") with
     | .ok (_, st') => st'.feeEnabled "transfer" "channel-0"
     | .error _ => false) = true ∧
    stNoFee.feeEnabled "transfer" "channel-0" = false := by
  decide

/-- **C6** (amended): the `FeeEnabled` flag is not reserved to the callback
that finalizes a handshake: a successful fee-version `OnChanOpenInit`
already records it, while the open handshake's Ack and Confirm callbacks
never touch fee state; for upgrades, Init and Try leave the state untouched
and the flag is applied only at the upgrade Open step, after which it is
true exactly when the final negotiated version is wrapped metadata (for
negotiated versions, the wrapped fee version) — so upgrading a fee-enabled
channel to a non-fee version clears the flag and vice versa. -/
theorem c6_feeEnabled_transitions :
    (∀ (appCb : ChanVersion → Except String String) (st : FeeState)
      (port chan av : String) (v' : ChanVersion) (st' : FeeState),
      onChanOpenInit appCb st port chan (.wrapped feeVersionConst av) =
        .ok (v', st') → st'.feeEnabled port chan = true) ∧
    (∀ (appCb : ChanVersion → Except String Unit) (st : FeeState)
      (port chan : String) (cpv : ChanVersion) (st' : FeeState),
      onChanOpenAck appCb st port chan cpv = .ok st' → st' = st) ∧
    (∀ (appResult : Except String Unit) (st : FeeState)
      (port chan : String) (st' : FeeState),
      onChanOpenConfirm appResult st port chan = .ok st' → st' = st) ∧
    (∀ (appCb : ChanVersion → Except String String) (st : FeeState)
      (v : ChanVersion) (r : ChanVersion × FeeState),
      onChanUpgradeInit appCb st v = .ok r → r.2 = st) ∧
    (∀ (appCb : ChanVersion → Except String String) (st : FeeState)
      (v : ChanVersion) (r : ChanVersion × FeeState),
      onChanUpgradeTry appCb st v = .ok r → r.2 = st) ∧
    (∀ (st : FeeState) (port chan : String) (v : ChanVersion),
      (onChanUpgradeOpen st port chan v).feeEnabled port chan = true ↔
        ∃ fv av, v = .wrapped fv av) := by
  refine ⟨?_, ?_, ?_, ?_, ?_, ?_⟩
  · intro appCb st port chan av v' st' h
    simp only [onChanOpenInit] at h
    simp only [if_true] at h
    rcases happ : appCb (.raw av) with e | vv
    · rw [happ] at h; exact absurd h (by simp)
    · rw [happ] at h
      simp only [Except.ok.injEq, Prod.mk.injEq] at h
      rw [← h.2]
      simp [FeeState.setFeeEnabled]
  · intro appCb st port chan cpv st'
    cases cpv with
    | raw s =>
      intro h
      simp only [onChanOpenAck] at h
      by_cases hfe : st.feeEnabled port chan = true
      · rw [if_pos hfe] at h; exact appLift_ok h
      · rw [if_neg hfe] at h; exact appLift_ok h
    | wrapped fv av =>
      intro h
      simp only [onChanOpenAck] at h
      by_cases hfe : st.feeEnabled port chan = true
      · rw [if_pos hfe] at h
        by_cases hv : fv = feeVersionConst
        · rw [if_pos hv] at h; exact appLift_ok h
        · rw [if_neg hv] at h; exact absurd h (by simp)
      · rw [if_neg hfe] at h
        exact appLift_ok h
  · intro appResult st port chan st' h
    exact appLift_ok h
  · intro appCb st v r
    cases v with
    | raw s =>
      intro h
      simp only [onChanUpgradeInit] at h
      rcases happ : appCb (.raw s) with e | vv
      · rw [happ] at h; exact absurd h (by simp)
      · rw [happ] at h
        simp only [Except.ok.injEq] at h
        rw [← h]
    | wrapped fv av =>
      intro h
      simp only [onChanUpgradeInit] at h
      by_cases hfv : fv = feeVersionConst
      · rw [if_pos hfv] at h
        rcases happ : appCb (.raw av) with e | vv
        · rw [happ] at h; exact absurd h (by simp)
        · rw [happ] at h
          simp only [Except.ok.injEq] at h
          rw [← h]
      · rw [if_neg hfv] at h
        exact absurd h (by simp)
  · intro appCb st v r
    cases v with
    | raw s =>
      intro h
      simp only [onChanUpgradeTry] at h
      rcases happ : appCb (.raw s) with e | vv
      · rw [happ] at h; exact absurd h (by simp)
      · rw [happ] at h
        simp only [Except.ok.injEq] at h
        rw [← h]
    | wrapped fv av =>
      intro h
      simp only [onChanUpgradeTry] at h
      by_cases hfv : fv = feeVersionConst
      · rw [if_pos hfv] at h
        rcases happ : appCb (.raw av) with e | vv
        · rw [happ] at h; exact absurd h (by simp)
        · rw [happ] at h
          simp only [Except.ok.injEq] at h
          rw [← h]
      · rw [if_neg hfv] at h
        exact absurd h (by simp)
  · intro st port chan v
    cases v with
    | raw s =>
      constructor
      · intro h
        simp [onChanUpgradeOpen, FeeState.deleteFeeEnabled] at h
      · intro h
        rcases h with ⟨fv, av, h⟩
        exact absurd h (by simp)
    | wrapped fv av =>
      constructor
      · intro _
        exact ⟨fv, av, rfl⟩
      · intro _
        simp [onChanUpgradeOpen, FeeState.setFeeEnabled]

/-- **C6** (witness): the open-Init conjunct applied at a concrete fee
handshake, the open-Confirm conjunct at a concrete state, and the
upgrade-Open equivalence at a concrete wrapped final version. -/
theorem c6_feeEnabled_transitions_witness :
    (stNoFee.setFeeEnabled "transfer" "channel-0").feeEnabled "transfer"
      "channel-0" = true ∧
    stNoFee = stNoFee ∧
    (onChanUpgradeOpen stNoFee "transfer" "channel-0"
      (.wrapped feeVersionConst "mock-version")).feeEnabled "transfer"
      "channel-0" = true :=
  ⟨c6_feeEnabled_transitions.1 (fun _ => .ok "mock-version") stNoFee
      "transfer" "channel-0" "mock-version"
      (.wrapped feeVersionConst "mock-version")
      (stNoFee.setFeeEnabled "transfer" "channel-0") rfl,
   c6_feeEnabled_transitions.2.2.1 (.ok ()) stNoFee "transfer" "channel-0"
      stNoFee rfl,
   (c6_feeEnabled_transitions.2.2.2.2.2 stNoFee "transfer" "channel-0"
      (.wrapped feeVersionConst "mock-version")).mpr
      ⟨feeVersionConst, "mock-version", rfl⟩⟩

/-- **C7** (counterexample): at `OnChanOpenAck` on a channel that is *not*
fee-enabled, a counterparty version that decodes as metadata with a wrong
fee version does not fail with `ErrInvalidVersion` — the whole version
passes through to the wrapped app and the step succeeds. -/
theorem c7_counterexample :
    onChanOpenAck (fun _ => .ok ()) stNoFee "transfer" "channel-0"
      (.wrapped "invalid-ics29-1" "mock-version") = .ok stNoFee ∧
    (Except.ok stNoFee : Except FeeErr FeeState) ≠ .error .invalidVersion := by
  constructor
  · rfl
  · intro h
    exact Except.noConfusion h

/-- **C7** (amended): whenever the peer-supplied version decodes as metadata
with a `FeeVersion` different from the supported constant, the negotiation
steps `OnChanOpenInit`, `OnChanOpenTry`, `OnChanUpgradeInit`,
`OnChanUpgradeTry` and `OnChanUpgradeAck` fail with `ErrInvalidVersion`
unconditionally, and `OnChanOpenAck` does so on a fee-enabled channel (on a
channel that is not fee-enabled the version passes through to the app
instead). -/
theorem c7_wrong_fee_version_rejected :
    (∀ (appCb : ChanVersion → Except String String) (st : FeeState)
      (port chan fv av : String), fv ≠ feeVersionConst →
      onChanOpenInit appCb st port chan (.wrapped fv av) =
        .error .invalidVersion) ∧
    (∀ (appCb : ChanVersion → Except String String) (st : FeeState)
      (port chan fv av : String), fv ≠ feeVersionConst →
      onChanOpenTry appCb st port chan (.wrapped fv av) =
        .error .invalidVersion) ∧
    (∀ (appCb : ChanVersion → Except String Unit) (st : FeeState)
      (port chan fv av : String), fv ≠ feeVersionConst →
      st.feeEnabled port chan = true →
      onChanOpenAck appCb st port chan (.wrapped fv av) =
        .error .invalidVersion) ∧
    (∀ (appCb : ChanVersion → Except String String) (st : FeeState)
      (fv av : String), fv ≠ feeVersionConst →
      onChanUpgradeInit appCb st (.wrapped fv av) = .error .invalidVersion) ∧
    (∀ (appCb : ChanVersion → Except String String) (st : FeeState)
      (fv av : String), fv ≠ feeVersionConst →
      onChanUpgradeTry appCb st (.wrapped fv av) = .error .invalidVersion) ∧
    (∀ (appCb : ChanVersion → Except String Unit) (st : FeeState)
      (fv av : String), fv ≠ feeVersionConst →
      onChanUpgradeAck appCb st (.wrapped fv av) = .error .invalidVersion) := by
  refine ⟨?_, ?_, ?_, ?_, ?_, ?_⟩
  · intro appCb st port chan fv av hfv
    simp only [onChanOpenInit]
    rw [if_neg hfv]
  · intro appCb st port chan fv av hfv
    simp only [onChanOpenTry]
    rw [if_neg hfv]
  · intro appCb st port chan fv av hfv hfe
    simp only [onChanOpenAck]
    rw [if_pos hfe, if_neg hfv]
  · intro appCb st fv av hfv
    simp only [onChanUpgradeInit]
    rw [if_neg hfv]
  · intro appCb st fv av hfv
    simp only [onChanUpgradeTry]
    rw [if_neg hfv]
  · intro appCb st fv av hfv
    simp only [onChanUpgradeAck]
    rw [if_neg hfv]

/-- **C7** (witness): the six rejection conjuncts applied at a concrete
decodable-but-unsupported fee version. -/
theorem c7_wrong_fee_version_rejected_witness :
    onChanOpenInit (fun _ => .ok "mock-version") stNoFee "transfer"
      "channel-0" (.wrapped "invalid-ics29-1" "mock-version") =
      .error .invalidVersion ∧
    onChanOpenTry (fun _ => .ok "mock-version") stNoFee "transfer"
      "channel-0" (.wrapped "invalid-ics29-1" "mock-version") =
      .error .invalidVersion ∧
    onChanOpenAck (fun _ => .ok ()) stB "transfer" "channel-0"
      (.wrapped "invalid-ics29-1" "mock-version") = .error .invalidVersion ∧
    onChanUpgradeInit (fun _ => .ok "mock-version") stNoFee
      (.wrapped "invalid-ics29-1" "mock-version") = .error .invalidVersion ∧
    onChanUpgradeTry (fun _ => .ok "mock-version") stNoFee
      (.wrapped "invalid-ics29-1" "mock-version") = .error .invalidVersion ∧
    onChanUpgradeAck (fun _ => .ok ()) stNoFee
      (.wrapped "invalid-ics29-1" "mock-version") = .error .invalidVersion :=
  ⟨c7_wrong_fee_version_rejected.1 _ stNoFee "transfer" "channel-0" _ _
      (by decide),
   c7_wrong_fee_version_rejected.2.1 _ stNoFee "transfer" "channel-0" _ _
      (by decide),
   c7_wrong_fee_version_rejected.2.2.1 _ stB "transfer" "channel-0" _ _
      (by decide) (by decide),
   c7_wrong_fee_version_rejected.2.2.2.1 _ stNoFee _ _ (by decide),
   c7_wrong_fee_version_rejected.2.2.2.2.1 _ stNoFee _ _ (by decide),
   c7_wrong_fee_version_rejected.2.2.2.2.2 _ stNoFee _ _ (by decide)⟩

/-- **C8**: decoding the encoding of any valid
`IncentivizedAcknowledgement` yields the original value, and the strict
decode of any payload carrying a field outside
{app_acknowledgement, forward_relayer_address, underlying_app_success}
fails. -/
theorem c8_ack_codec_roundtrip_strict :
    (∀ a : IncentivizedAcknowledgement, decodeAck (encodeAck a) = some a) ∧
    (∀ (o : JObj) (k : String) (v : JVal), (k, v) ∈ o →
      k ∉ (["app_acknowledgement", "forward_relayer_address",
        "underlying_app_success"] : List String) →
      decodeAck o = none) := by
  constructor
  · intro a
    rfl
  · intro o k v hm hk
    exact decodeAckFields_unknown o _ k v hm hk

/-- **C8** (witness): the round trip at a concrete acknowledgement and the
strict rejection of a payload with an extra field, mirroring the in-tree
`TestAckUnmarshal` cases. -/
theorem c8_ack_codec_roundtrip_strict_witness :
    decodeAck (encodeAck ⟨[7, 7], "relayer", true⟩) =
      some ⟨[7, 7], "relayer", true⟩ ∧
    decodeAck [("app_acknowledgement", .jbytes [1]),
      ("forward_relayer_address", .jstr "relayer"),
      ("underlying_app_success", .jbool true),
      ("extra_field", .jstr "foo")] = none :=
  ⟨c8_ack_codec_roundtrip_strict.1 ⟨[7, 7], "relayer", true⟩,
   c8_ack_codec_roundtrip_strict.2 _ "extra_field" (.jstr "foo")
     (by decide) (by decide)⟩

/-- **C10**: on `OnRecvPacket` for a fee-enabled channel, when a
counterparty-payee mapping exists for the relayer but maps to the empty
string, the call still succeeds and returns an
`IncentivizedAcknowledgement` whose forward relayer address is the empty
string, with the wrapped app's acknowledgement bytes and success flag
intact, and the state untouched. -/
theorem c10_recv_empty_counterparty_payee :
    ∀ (st : FeeState) (p : Packet) (relayer : Addr) (bs : List Nat)
      (succ : Bool),
    st.feeEnabled p.destPort p.destChannel = true →
    st.counterpartyPayee relayer p.destChannel = some "" →
    onRecvPacket st p relayer (some (bs, succ)) =
      (.incentivized ⟨bs, "", succ⟩, st) := by
  intro st p relayer bs succ hfe hcp
  simp [onRecvPacket, hfe, hcp]

/-- **C10** (witness): a concrete fee-enabled state whose counterparty-payee
registry maps the relayer to the empty string. -/
theorem c10_recv_empty_counterparty_payee_witness :
    onRecvPacket { stB with counterpartyPayee := fun _ _ => some "" } pktB
      "relayerA" (some ([9], true)) =
      (.incentivized ⟨[9], "", true⟩,
        { stB with counterpartyPayee := fun _ _ => some "" }) :=
  c10_recv_empty_counterparty_payee
    { stB with counterpartyPayee := fun _ _ => some "" } pktB "relayerA"
    [9] true (by decide) rfl
